import Mathlib

/-!
Verification of the funds-flow graph indexing engine of the
blockchain-data-subnet repository, as a shallow embedding in Lean 4.

Sources embedded here:
  * neurons/miners/bitcoin/funds_flow_v2/graph_indexer.py
    (create_graph_focused_on_money_flow: netting pass, batched writes)
  * neurons/miners/bitcoin/funds_flow/graph_indexer.py
    (create_graph_focused_on_money_flow and create_graph_focused_on_money_flow2)
  * neurons/miners/ethereum/funds_flow/indexer.py
    (index_blocks, index_blocks_by_last_height, and the range partition
    in the __main__ block)

Python dicts are modelled as association lists in insertion order;
Python ints are Lean Int; the Neo4j explicit transaction is modelled by
its documented contract (writes buffered until commit, rollback discards,
closed after commit or rollback, close is a no-op on a closed transaction).
-/

namespace BlockchainSubnet

/-! ## Raw block data (the in-memory graph handed to the writers) -/

abbrev Addr := String

/-- One output of a bitcoin transaction (vout): receiving address and amount
in satoshi. -/
structure VOut where
  address : Addr
  value_satoshi : Int
deriving DecidableEq, Repr

/-- One input of a bitcoin transaction (vin): reference to a prior
transaction output. `tx_id = 0` is the coinbase sentinel skipped by the
indexer. -/
structure VIn where
  tx_id : Nat
  vout_id : Nat
deriving DecidableEq, Repr

/-- A transaction of the in-memory block graph passed to the graph writers. -/
structure BTx where
  tx_id : Nat
  timestamp : Int
  block_height : Int
  is_coinbase : Bool
  vins : List VIn
  vouts : List VOut
deriving DecidableEq, Repr

/-! ## Python dict model: association list in insertion order -/

/-- Amount map keyed by address, as built by the netting code
(`in_amount_by_address` / `out_amount_by_address`). -/
abbrev AMap := List (Addr × Int)

/-- `d[k] += v if k in d else d[k] = v`. -/
def dAdd (m : AMap) (k : Addr) (v : Int) : AMap :=
  if m.any (fun p => p.1 == k) then
    m.map (fun p => if p.1 = k then (p.1, p.2 + v) else p)
  else
    m ++ [(k, v)]

/-- `k in d`. -/
def dMem (m : AMap) (k : Addr) : Bool :=
  m.any (fun p => p.1 == k)

/-- `d[k]` (0 when the key is absent; the code only reads present keys). -/
def dGet (m : AMap) (k : Addr) : Int :=
  ((m.find? (fun p => p.1 == k)).map Prod.snd).getD 0

/-- `d[k] = v` for a key already present: update every entry of that key. -/
def dSet (m : AMap) (k : Addr) (v : Int) : AMap :=
  m.map (fun p => if p.1 = k then (p.1, v) else p)

/-! ## Flow Netting Engine
(funds_flow_v2/graph_indexer.py, create_graph_focused_on_money_flow,
lines 119-171) -/

/-- Accumulation of resolved input origins into `in_amount_by_address`
(lines 122-129).  `resolve` stands for the external
`_bitcoin_node.get_address_and_amount_by_txn_id_and_vout_id`. -/
def in_amount_map (resolve : Nat → Nat → Addr × Int) (vins : List VIn) : AMap :=
  vins.foldl
    (fun m vin =>
      if vin.tx_id = 0 then m
      else dAdd m (resolve vin.tx_id vin.vout_id).1 (resolve vin.tx_id vin.vout_id).2)
    []

/-- Accumulation of outputs into `out_amount_by_address` (lines 131-137). -/
def out_amount_map (vouts : List VOut) : AMap :=
  vouts.foldl (fun m vout => dAdd m vout.address vout.value_satoshi) []

/-- Body of the netting loop for one address of the inbound map
(lines 139-151). -/
def nettingStep (p : AMap × AMap) (a : Addr) : AMap × AMap :=
  if dGet p.1 a = 0 then p
  else if dMem p.2 a && !(dGet p.2 a == 0) then
    if dGet p.1 a > dGet p.2 a then
      (dSet p.1 a (dGet p.1 a - dGet p.2 a), dSet p.2 a 0)
    else if dGet p.1 a < dGet p.2 a then
      (dSet p.1 a 0, dSet p.2 a (dGet p.2 a - dGet p.1 a))
    else
      (dSet p.1 a 0, dSet p.2 a 0)
  else p

/-- The netting pass: `for address in in_amount_by_address.keys(): ...`
(lines 139-151). Keys of the map are fixed by the loop; only values change. -/
def netting_pass (mi mo : AMap) : AMap × AMap :=
  (mi.map Prod.fst).foldl nettingStep (mi, mo)

/-! ## Netted per-transaction records (funds_flow_v2, lines 153-171) -/

/-- One row of `batch_txns`. -/
structure TxRec where
  tx_id : Nat
  in_total_amount : Int
  out_total_amount : Int
  timestamp : Int
  block_height : Int
  is_coinbase : Bool
deriving DecidableEq, Repr

/-- One row of `batch_inputs` / `batch_outputs`. -/
structure FlowRec where
  address : Addr
  amount : Int
  tx_id : Nat
deriving DecidableEq, Repr

/-- Addresses of a netted map that keep a nonzero amount (lines 153-154). -/
def nonzero_addresses (m : AMap) : List Addr :=
  (m.map Prod.fst).filter (fun a => !(dGet m a == 0))

/-- The Netting Engine on one transaction: netted metadata record, inbound
flow records, outbound flow records (lines 118-171). -/
def process_tx_v2 (resolve : Nat → Nat → Addr × Int) (tx : BTx) :
    TxRec × List FlowRec × List FlowRec :=
  let mi0 := in_amount_map resolve tx.vins
  let mo0 := out_amount_map tx.vouts
  let p := netting_pass mi0 mo0
  let input_addresses := nonzero_addresses p.1
  let output_addresses := nonzero_addresses p.2
  let in_total_amount := (input_addresses.map (fun a => dGet p.1 a)).sum
  let out_total_amount := (output_addresses.map (fun a => dGet p.2 a)).sum
  ( { tx_id := tx.tx_id, in_total_amount := in_total_amount,
      out_total_amount := out_total_amount, timestamp := tx.timestamp,
      block_height := tx.block_height, is_coinbase := tx.is_coinbase },
    input_addresses.map (fun a => { address := a, amount := dGet p.1 a, tx_id := tx.tx_id }),
    output_addresses.map (fun a => { address := a, amount := dGet p.2 a, tx_id := tx.tx_id }) )

/-- `batch_txns`, `batch_inputs`, `batch_outputs` accumulated over one batch
(lines 115-171). -/
def batch_records_v2 (resolve : Nat → Nat → Addr × Int) (batch : List BTx) :
    List TxRec × List FlowRec × List FlowRec :=
  batch.foldl
    (fun acc tx =>
      let r := process_tx_v2 resolve tx
      (acc.1 ++ [r.1], acc.2.1 ++ r.2.1, acc.2.2 ++ r.2.2))
    ([], [], [])

/-! ## Graph store model (Memgraph/Neo4j property graph) -/

/-- A `:Transaction` node. A bare `MERGE (t:Transaction {tx_id: ...})` with no
`ON CREATE SET` creates a node carrying only the key, hence the optional
attributes. -/
structure TxNode where
  tx_id : Nat
  timestamp : Option Int
  in_total_amount : Option Int
  out_total_amount : Option Int
  block_height : Option Int
  is_coinbase : Option Bool
deriving DecidableEq, Repr

/-- Direction of a `:SENT` edge: inbound is `(a)-[:SENT]->(t)`, outbound is
`(t)-[:SENT]->(a)`. -/
inductive EdgeDir
  | inbound
  | outbound
deriving DecidableEq, Repr

/-- A `:SENT` edge. Only the funds_flow (v1) schema stores an `is_coinbase`
attribute on edges, hence the option. -/
structure SentEdge where
  dir : EdgeDir
  address : Addr
  tx_id : Nat
  value_satoshi : Int
  edge_is_coinbase : Option Bool
deriving DecidableEq, Repr

/-- The persisted property graph. -/
structure GStore where
  txNodes : List TxNode
  addrNodes : List Addr
  edges : List SentEdge
deriving DecidableEq, Repr

def emptyStore : GStore := { txNodes := [], addrNodes := [], edges := [] }

def hasTx (g : GStore) (id : Nat) : Bool :=
  g.txNodes.any (fun n => n.tx_id == id)

def hasAddr (g : GStore) (a : Addr) : Bool :=
  g.addrNodes.any (fun b => b == a)

/-- `MERGE (t:Transaction {tx_id: ...}) ON CREATE SET ...`: upsert by key,
attributes written only when the node is created. -/
def mergeTxNode (g : GStore) (n : TxNode) : GStore :=
  if hasTx g n.tx_id then g else { g with txNodes := g.txNodes ++ [n] }

/-- `MERGE (a:Address {address: ...})`: upsert by identifier. -/
def mergeAddr (g : GStore) (a : Addr) : GStore :=
  if hasAddr g a then g else { g with addrNodes := g.addrNodes ++ [a] }

/-- `CREATE (..)-[:SENT ...]->(..)`: always creates a new edge. -/
def addEdge (g : GStore) (e : SentEdge) : GStore :=
  { g with edges := g.edges ++ [e] }

/-- Node written by the v2 `UNWIND $transactions ... ON CREATE SET` statement
(funds_flow_v2, lines 173-185). -/
def txNodeOfRec (r : TxRec) : TxNode :=
  { tx_id := r.tx_id, timestamp := some r.timestamp,
    in_total_amount := some r.in_total_amount,
    out_total_amount := some r.out_total_amount,
    block_height := some r.block_height, is_coinbase := some r.is_coinbase }

/-- Node written by the v1 `ON CREATE SET` statement (funds_flow, lines
79-96): no totals are stored. -/
def txNodeOfTxV1 (tx : BTx) : TxNode :=
  { tx_id := tx.tx_id, timestamp := some tx.timestamp,
    in_total_amount := none, out_total_amount := none,
    block_height := some tx.block_height, is_coinbase := some tx.is_coinbase }

/-- Node created by a bare `MERGE (t:Transaction {tx_id: ...})` inside an
edge-creation statement. -/
def bareTxNode (id : Nat) : TxNode :=
  { tx_id := id, timestamp := none, in_total_amount := none,
    out_total_amount := none, block_height := none, is_coinbase := none }

/-- `UNWIND`-fold of transaction upserts. -/
def merge_tx_fold {α : Type} (f : α → TxNode) (recs : List α) (g : GStore) : GStore :=
  recs.foldl (fun g r => mergeTxNode g (f r)) g

/-- `UNWIND`-fold of edge creations: merge the address, merge the transaction
by key, create a fresh `:SENT` edge. -/
def edge_fold {α : Type} (addrF : α → Addr) (idF : α → Nat) (edgeF : α → SentEdge)
    (recs : List α) (g : GStore) : GStore :=
  recs.foldl
    (fun g r => addEdge (mergeTxNode (mergeAddr g (addrF r)) (bareTxNode (idF r))) (edgeF r))
    g

/-- v2 statement `UNWIND $transactions AS tx MERGE ... ON CREATE SET ...`
(funds_flow_v2, lines 173-185). -/
def stmt_merge_transactions_v2 (recs : List TxRec) (g : GStore) : GStore :=
  merge_tx_fold txNodeOfRec recs g

/-- v2 statement creating inbound edges `(a)-[:SENT]->(t)` (lines 187-195). -/
def stmt_create_in_edges (recs : List FlowRec) (g : GStore) : GStore :=
  edge_fold FlowRec.address FlowRec.tx_id
    (fun r => { dir := EdgeDir.inbound, address := r.address, tx_id := r.tx_id,
                value_satoshi := r.amount, edge_is_coinbase := none })
    recs g

/-- v2 statement creating outbound edges `(t)-[:SENT]->(a)` (lines 197-205). -/
def stmt_create_out_edges (recs : List FlowRec) (g : GStore) : GStore :=
  edge_fold FlowRec.address FlowRec.tx_id
    (fun r => { dir := EdgeDir.outbound, address := r.address, tx_id := r.tx_id,
                value_satoshi := r.amount, edge_is_coinbase := none })
    recs g

/-- One batch of the v2 writer: netted records, then the three statements in
order. -/
def apply_batch_v2 (resolve : Nat → Nat → Addr × Int) (batch : List BTx) (g : GStore) : GStore :=
  let recs := batch_records_v2 resolve batch
  stmt_create_out_edges recs.2.2 (stmt_create_in_edges recs.2.1 (stmt_merge_transactions_v2 recs.1 g))

/-- One row of `batch_vouts` of the v1 writer (funds_flow, lines 99-111). -/
structure VoutRec where
  tx_id : Nat
  address : Addr
  value_satoshi : Int
  vout_is_coinbase : Bool
deriving DecidableEq, Repr

/-- `batch_vouts` of one v1 batch: the edge coinbase flag is true only for
the first vout of a coinbase transaction (funds_flow, lines 99-111). -/
def batch_vouts_v1 (batch : List BTx) : List VoutRec :=
  batch.foldl
    (fun acc tx =>
      acc ++ tx.vouts.enum.map
        (fun p => { tx_id := tx.tx_id, address := p.2.address,
                    value_satoshi := p.2.value_satoshi,
                    vout_is_coinbase := tx.is_coinbase && p.1 == 0 }))
    []

/-- v1 statement upserting the batch's transactions (funds_flow, lines 79-96). -/
def stmt_merge_transactions_v1 (batch : List BTx) (g : GStore) : GStore :=
  merge_tx_fold txNodeOfTxV1 batch g

/-- v1 statement creating one `(t)-[:SENT]->(a)` edge per vout (lines 113-121). -/
def stmt_create_vout_edges (recs : List VoutRec) (g : GStore) : GStore :=
  edge_fold VoutRec.address VoutRec.tx_id
    (fun r => { dir := EdgeDir.outbound, address := r.address, tx_id := r.tx_id,
                value_satoshi := r.value_satoshi,
                edge_is_coinbase := some r.vout_is_coinbase })
    recs g

/-- One batch of the v1 writer. -/
def apply_batch_v1 (batch : List BTx) (g : GStore) : GStore :=
  stmt_create_vout_edges (batch_vouts_v1 batch) (stmt_merge_transactions_v1 batch g)

/-! ## Neo4j explicit transaction (the block's atomic unit of work) -/

inductive TxPhase
  | isOpen
  | isCommitted
  | isRolledBack
  | isClosed
deriving DecidableEq, Repr

/-- State of `session.begin_transaction()`: the store at begin, the working
store holding buffered writes, and the lifecycle phase. -/
structure Neo4jTx where
  base : GStore
  working : GStore
  phase : TxPhase
deriving DecidableEq, Repr

def tx_begin (g : GStore) : Neo4jTx := { base := g, working := g, phase := TxPhase.isOpen }

/-- `transaction.run(...)`: applies a statement to the working store. -/
def tx_run (f : GStore → GStore) (t : Neo4jTx) : Neo4jTx :=
  { t with working := f t.working }

def tx_commit (t : Neo4jTx) : Neo4jTx := { t with phase := TxPhase.isCommitted }

def tx_rollback (t : Neo4jTx) : Neo4jTx := { t with phase := TxPhase.isRolledBack }

/-- `transaction.closed()`: true after commit, rollback or close. -/
def tx_closed (t : Neo4jTx) : Bool := !(t.phase == TxPhase.isOpen)

def tx_close (t : Neo4jTx) : Neo4jTx :=
  if tx_closed t then t else { t with phase := TxPhase.isClosed }

/-- The store visible to readers after the unit of work: buffered writes are
persisted only by a commit. -/
def tx_visible (t : Neo4jTx) : GStore :=
  if t.phase = TxPhase.isCommitted then t.working else t.base

/-- The `finally` clause of both writers:
`if transaction.closed() is False: transaction.close()`. -/
def run_finally (t : Neo4jTx) : Neo4jTx :=
  if tx_closed t = false then tx_close t else t

/-! ## Batched writer control flow (both graph_indexer.py variants) -/

/-- `transactions[i : i + batch_size]` slices produced by
`range(0, len(transactions), batch_size)`; fuelled by the list length so the
definition reduces by evaluation (`batch_size = 0` raises in Python and is
excluded by hypothesis where it matters). -/
def chunksAux {α : Type} (bs : Nat) : Nat → List α → List (List α)
  | 0, _ => []
  | _, [] => []
  | fuel + 1, l => l.take bs :: chunksAux bs fuel (l.drop bs)

def chunks {α : Type} (bs : Nat) (l : List α) : List (List α) :=
  if bs = 0 then [] else chunksAux bs l.length l

/-- The batch loop inside `try:`: batches processed in order; `failAt i`
means an exception is raised while processing batch `i` (input resolution or
statement failure), carrying the transaction state to the handler. -/
def batch_loop (applyB : List BTx → GStore → GStore) (failAt : Nat → Bool) :
    List (List BTx) → Nat → Neo4jTx → Except Neo4jTx Neo4jTx
  | [], _, t => Except.ok t
  | b :: bs, i, t =>
    if failAt i then Except.error t
    else batch_loop applyB failAt bs (i + 1) (tx_run (applyB b) t)

/-- Generic embedding of the try/except/finally of both
`create_graph_focused_on_money_flow` writers: commit and return True on
success, rollback and return False on any batch error, close in `finally`. -/
def run_writer (applyB : List BTx → GStore → GStore) (txs : List BTx)
    (batch_size : Nat) (failAt : Nat → Bool) (g : GStore) : Bool × Neo4jTx :=
  match batch_loop applyB failAt (chunks batch_size txs) 0 (tx_begin g) with
  | Except.ok t1 => (true, run_finally (tx_commit t1))
  | Except.error t1 => (false, run_finally (tx_rollback t1))

/-- funds_flow_v2 `create_graph_focused_on_money_flow` (lines 102-217). -/
def create_graph_focused_on_money_flow_v2 (resolve : Nat → Nat → Addr × Int)
    (txs : List BTx) (batch_size : Nat) (failAt : Nat → Bool) (g : GStore) :
    Bool × Neo4jTx :=
  run_writer (apply_batch_v2 resolve) txs batch_size failAt g

/-- funds_flow `create_graph_focused_on_money_flow` (lines 66-136). -/
def create_graph_focused_on_money_flow_v1 (txs : List BTx) (batch_size : Nat)
    (failAt : Nat → Bool) (g : GStore) : Bool × Neo4jTx :=
  run_writer apply_batch_v1 txs batch_size failAt g

/-- The store visible after one error-free run of the v2 writer on a block. -/
def write_once_v2 (resolve : Nat → Nat → Addr × Int) (txs : List BTx)
    (batch_size : Nat) (g : GStore) : GStore :=
  tx_visible (create_graph_focused_on_money_flow_v2 resolve txs batch_size
    (fun _ => false) g).2

/-- The store visible after running the v2 writer twice on the same block. -/
def write_twice_v2 (resolve : Nat → Nat → Addr × Int) (txs : List BTx)
    (batch_size : Nat) (g : GStore) : GStore :=
  write_once_v2 resolve txs batch_size (write_once_v2 resolve txs batch_size g)

/-- The store visible after one error-free run of the v1 writer on a block. -/
def write_once_v1 (txs : List BTx) (batch_size : Nat) (g : GStore) : GStore :=
  tx_visible (create_graph_focused_on_money_flow_v1 txs batch_size (fun _ => false) g).2

/-- The store visible after running the v1 writer twice on the same block. -/
def write_twice_v1 (txs : List BTx) (batch_size : Nat) (g : GStore) : GStore :=
  write_once_v1 txs batch_size (write_once_v1 txs batch_size g)

/-! ## Legacy writer create_graph_focused_on_money_flow2
(funds_flow/graph_indexer.py, lines 138-193) -/

/-- One edge-creation statement of the legacy writer: merge address, merge
transaction by key, create a `(t)-[:SENT]->(a)` edge with the given coinbase
flag. -/
def flow2_add_edge (g : GStore) (a : Addr) (id : Nat) (v : Int) (cb : Bool) : GStore :=
  addEdge (mergeTxNode (mergeAddr g a) (bareTxNode id))
    { dir := EdgeDir.outbound, address := a, tx_id := id,
      value_satoshi := v, edge_is_coinbase := some cb }

/-- Processing of one transaction in the legacy writer (lines 144-182):
upsert the node; for a coinbase transaction create an extra edge for
`tx.vouts[0]` flagged `is_coinbase: true` (IndexError, hence `none`, when
there is no vout); then an edge per vout flagged `is_coinbase: false`. -/
def flow2_process_tx (g : GStore) (tx : BTx) : Option GStore :=
  let g1 := mergeTxNode g (txNodeOfTxV1 tx)
  if tx.is_coinbase then
    match tx.vouts with
    | [] => none
    | v0 :: _ =>
      some (tx.vouts.foldl
        (fun g v => flow2_add_edge g v.address tx.tx_id v.value_satoshi false)
        (flow2_add_edge g1 v0.address tx.tx_id v0.value_satoshi true))
  else
    some (tx.vouts.foldl
      (fun g v => flow2_add_edge g v.address tx.tx_id v.value_satoshi false)
      g1)

/-- The transaction loop of the legacy writer; `none` propagates the raised
exception to the handler. -/
def flow2_loop : List BTx → GStore → Option GStore
  | [], g => some g
  | tx :: rest, g =>
    match flow2_process_tx g tx with
    | none => none
    | some g1 => flow2_loop rest g1

/-- `create_graph_focused_on_money_flow2` (lines 138-193): commit and True on
success, rollback (store unchanged) and False on an exception. -/
def create_graph_focused_on_money_flow2 (txs : List BTx) (g : GStore) : Bool × GStore :=
  match flow2_loop txs g with
  | some g1 => (true, g1)
  | none => (false, g)

/-! ## Backfill Scheduler range partition
(ethereum/funds_flow/indexer.py, __main__, lines 218-234) -/

/-- `thread_depth = floor((last_height - start_height) / num_threads)`;
Python `//`-style floor division. -/
def thread_depth (s l : Int) (n : Nat) : Int := Int.fdiv (l - s) n

/-- `restHeight = (last_height - start_height) % num_threads`; Python `%`
takes the divisor's sign. -/
def restHeight (s l : Int) (n : Nat) : Int := Int.fmod (l - s) n

/-- `start = start_height + i * thread_depth` (line 230). -/
def worker_start (s l : Int) (n : Nat) (i : Nat) : Int :=
  s + (i : Int) * thread_depth s l n

/-- `last = start_height + (i + 1) * thread_depth - 1`, overridden for the
final worker to `start_height + (i + 1) * thread_depth + restHeight`
(lines 231-233). -/
def worker_last (s l : Int) (n : Nat) (i : Nat) : Int :=
  if i = n - 1 then s + ((i : Int) + 1) * thread_depth s l n + restHeight s l n
  else s + ((i : Int) + 1) * thread_depth s l n - 1

/-! ## Startup resume points (ethereum indexer __main__, lines 197-246) -/

/-- `graph_last_block_height = graph_indexer.get_latest_block_number() + 1`
(line 202). -/
def graph_last_block_height (latestIndexed : Int) : Int := latestIndexed + 1

/-- `start_height` (lines 203-208): the explicit override when
`ETHEREUM_START_BLOCK_HEIGHT` is set, else one past the latest indexed
height. -/
def startup_start_height (startOverride : Option Int) (latestIndexed : Int) : Int :=
  match startOverride with
  | some s => s
  | none => graph_last_block_height latestIndexed

/-- `last_height` (lines 210-216): the chain tip, or the explicit
`ETHEREUM_LAST_BLOCK_HEIGHT` override raised to the tip when the tip is
larger. -/
def startup_last_height (lastOverride : Option Int) (chainTip : Int) : Int :=
  match lastOverride with
  | some l => if chainTip > l then chainTip else l
  | none => chainTip

/-- The height the main thread hands to the head-follower loop:
`index_blocks(ethereum_node, graph_creator, graph_indexer, last_height + 1)`
(line 246). -/
def head_follower_start_height (lastOverride : Option Int) (chainTip : Int) : Int :=
  startup_last_height lastOverride chainTip + 1

/-! ## Indexing loops (ethereum indexer, index_blocks and
index_blocks_by_last_height) -/

/-- The inclusive integer range `[a, b]` walked by
`while block_height <= ...: block_height += 1`. -/
def heightsFromTo (a b : Int) : List Int :=
  (List.range (b + 1 - a).toNat).map (fun k : Nat => a + (k : Int))

/-- Heights requested during one outer-loop iteration of `index_blocks`
(lines 27-48) when every block is non-empty and every write succeeds, each
paired with the chain-tip sample in force: `current_block_height` is the
sampled tip minus 6, and the inner loop runs while
`block_height <= current_block_height - skip_blocks` with `skip_blocks = 6`. -/
def head_follower_pass (startH tip : Int) : List (Int × Int) :=
  let current := tip - 6
  if current - 6 < 0 then []
  else if startH > current then []
  else (heightsFromTo startH (current - 6)).map (fun h => (h, tip))

/-- The head-follower outer loop (`while not shutdown_flag`, lines 27-97),
re-sampling the chain tip each iteration; the fuel bounds how many outer
iterations are observed. -/
def head_follower_run (startH : Int) (tipAt : Nat → Int) : Nat → List (Int × Int)
  | 0 => []
  | n + 1 => head_follower_pass startH (tipAt n) ++ head_follower_run startH tipAt n

/-- Heights requested during one outer-loop iteration of
`index_blocks_by_last_height` (lines 106-175) when every block is non-empty
and every write succeeds: `current_block_height = last_height - 6` and the
inner loop runs to `current_block_height - 6`. -/
def backfill_pass (startH lastH : Int) : List Int :=
  let current := lastH - 6
  if current - 6 < 0 then []
  else if startH > current then []
  else heightsFromTo startH (current - 6)

/-- The backfill worker's outer loop: `start_height` is never advanced, so
every iteration restarts the cursor at the same `start_height`. -/
def backfill_run (startH lastH : Int) : Nat → List Int
  | 0 => []
  | n + 1 => backfill_pass startH lastH ++ backfill_run startH lastH n

/-- Outcome of one inner-loop iteration of either indexing loop. -/
structure IterOutcome (σ : Type) where
  store : σ
  next_height : Int
  invoked_indexer : Bool
  committed : Bool
  sleep_seconds : Nat

/-- One inner-loop iteration over the block at `block_height` (lines 43-97 of
index_blocks, 122-175 of index_blocks_by_last_height). `writeBlock` stands
for `create_in_memory_graph_from_block` followed by
`create_graph_focused_on_funds_flow` on the store; `numTransactions` is
`len(block["transactions"])`. An empty block skips indexing and advances; a
successful write advances and sleeps `delay` when the transaction count
exceeds `threshold`; a failed write sleeps 30 seconds and leaves the cursor
at the same height. -/
def index_block_iteration {σ : Type} (writeBlock : σ → σ × Bool)
    (threshold delay : Nat) (numTransactions : Nat) (s : σ) (block_height : Int) :
    IterOutcome σ :=
  if numTransactions = 0 then
    { store := s, next_height := block_height + 1, invoked_indexer := false,
      committed := false, sleep_seconds := 0 }
  else
    let r := writeBlock s
    if r.2 then
      { store := r.1, next_height := block_height + 1, invoked_indexer := true,
        committed := true,
        sleep_seconds := if threshold < numTransactions then delay else 0 }
    else
      { store := r.1, next_height := block_height, invoked_indexer := true,
        committed := false, sleep_seconds := 30 }

/-! ## Abbreviations naming the netted and raw amounts of one transaction -/

/-- Raw inbound amount accumulated for `a` before the netting pass. -/
def raw_in (resolve : Nat → Nat → Addr × Int) (vins : List VIn) (a : Addr) : Int :=
  dGet (in_amount_map resolve vins) a

/-- Raw outbound amount accumulated for `a` before the netting pass. -/
def raw_out (vouts : List VOut) (a : Addr) : Int :=
  dGet (out_amount_map vouts) a

/-- Inbound amount left for `a` after the netting pass. -/
def netted_in (resolve : Nat → Nat → Addr × Int) (vins : List VIn) (vouts : List VOut)
    (a : Addr) : Int :=
  dGet (netting_pass (in_amount_map resolve vins) (out_amount_map vouts)).1 a

/-- Outbound amount left for `a` after the netting pass. -/
def netted_out (resolve : Nat → Nat → Addr × Int) (vins : List VIn) (vouts : List VOut)
    (a : Addr) : Int :=
  dGet (netting_pass (in_amount_map resolve vins) (out_amount_map vouts)).2 a

/-! # Lemmas and claim theorems -/

/-! ## Dict model lemmas -/

theorem dGet_of_not_dMem (m : AMap) (k : Addr) (h : dMem m k = false) :
    dGet m k = 0 := by
  induction m with
  | nil => rfl
  | cons p t ih =>
    simp only [dMem, List.any_cons, Bool.or_eq_false_iff] at h
    simp only [dGet, List.find?]
    rw [h.1]
    exact ih h.2

theorem dMem_of_dGet_ne (m : AMap) (k : Addr) (h : dGet m k ≠ 0) :
    dMem m k = true := by
  by_contra hc
  exact h (dGet_of_not_dMem m k (Bool.not_eq_true _ ▸ hc))

theorem dMem_dSet (m : AMap) (k : Addr) (v : Int) (b : Addr) :
    dMem (dSet m k v) b = dMem m b := by
  unfold dMem dSet
  rw [List.any_map]
  congr 1
  funext p
  by_cases hp : p.1 = k
  · simp [Function.comp, hp]
  · simp [Function.comp, hp]

theorem dGet_dSet_ne (m : AMap) (k : Addr) (v : Int) (b : Addr) (h : b ≠ k) :
    dGet (dSet m k v) b = dGet m b := by
  induction m with
  | nil => rfl
  | cons p t ih =>
    by_cases hpk : p.1 = k
    · have hpb : (p.1 == b) = false := by
        refine beq_eq_false_iff_ne.mpr ?_
        rw [hpk]
        exact fun hc => h hc.symm
      simp only [dSet, List.map_cons, if_pos hpk, dGet, List.find?, hpb]
      exact ih
    · by_cases hpb : (p.1 == b) = true
      · simp only [dSet, List.map_cons, if_neg hpk, dGet, List.find?, hpb]
      · have hpb1 : (p.1 == b) = false := by
          simpa using hpb
        simp only [dSet, List.map_cons, if_neg hpk, dGet, List.find?, hpb1]
        exact ih

theorem dGet_dSet_self (m : AMap) (k : Addr) (v : Int) (h : dMem m k = true) :
    dGet (dSet m k v) k = v := by
  induction m with
  | nil => simp [dMem] at h
  | cons p t ih =>
    by_cases hpk : p.1 = k
    · have hb : (p.1 == k) = true := beq_iff_eq.mpr hpk
      simp [dSet, if_pos hpk, dGet, List.find?, hb]
    · have hb : (p.1 == k) = false := beq_eq_false_iff_ne.mpr hpk
      have ht : dMem t k = true := by
        simp only [dMem, List.any_cons, hb, Bool.false_or] at h
        exact h
      simp only [dSet, List.map_cons, if_neg hpk, dGet, List.find?, hb]
      exact ih ht

theorem mem_keys_of_dMem (m : AMap) (a : Addr) (h : dMem m a = true) :
    a ∈ m.map Prod.fst := by
  simp only [dMem, List.any_eq_true, beq_iff_eq] at h
  obtain ⟨p, hp, he⟩ := h
  exact he ▸ List.mem_map_of_mem Prod.fst hp

/-! ## Netting pass lemmas -/

theorem nettingStep_frame (p : AMap × AMap) (b a : Addr) (h : a ≠ b) :
    dGet (nettingStep p b).1 a = dGet p.1 a ∧
    dGet (nettingStep p b).2 a = dGet p.2 a := by
  unfold nettingStep
  split
  · exact ⟨rfl, rfl⟩
  · split
    · split
      · exact ⟨dGet_dSet_ne _ _ _ _ h, dGet_dSet_ne _ _ _ _ h⟩
      · split
        · exact ⟨dGet_dSet_ne _ _ _ _ h, dGet_dSet_ne _ _ _ _ h⟩
        · exact ⟨dGet_dSet_ne _ _ _ _ h, dGet_dSet_ne _ _ _ _ h⟩
    · exact ⟨rfl, rfl⟩

theorem nettingStep_diff (p : AMap × AMap) (b a : Addr) :
    dGet (nettingStep p b).1 a - dGet (nettingStep p b).2 a =
    dGet p.1 a - dGet p.2 a := by
  by_cases hab : a = b
  · subst hab
    unfold nettingStep
    split
    · rfl
    · rename_i hin
      split
      · rename_i hcond
        have h2mem : dMem p.2 a = true := by
          rcases Bool.and_eq_true_iff.mp hcond with ⟨h1, _⟩
          exact h1
        have h1mem : dMem p.1 a = true := dMem_of_dGet_ne _ _ hin
        split
        · rw [dGet_dSet_self _ _ _ h1mem, dGet_dSet_self _ _ _ h2mem]
          omega
        · split
          · rw [dGet_dSet_self _ _ _ h1mem, dGet_dSet_self _ _ _ h2mem]
            omega
          · rename_i hgt hlt
            rw [dGet_dSet_self _ _ _ h1mem, dGet_dSet_self _ _ _ h2mem]
            omega
      · rfl
  · obtain ⟨h1, h2⟩ := nettingStep_frame p b a hab
    rw [h1, h2]

theorem nettingStep_zero_self (p : AMap × AMap) (a : Addr) :
    dGet (nettingStep p a).1 a = 0 ∨ dGet (nettingStep p a).2 a = 0 := by
  unfold nettingStep
  split
  · rename_i hin
    exact Or.inl hin
  · rename_i hin
    split
    · rename_i hcond
      have h2mem : dMem p.2 a = true := (Bool.and_eq_true_iff.mp hcond).1
      have h1mem : dMem p.1 a = true := dMem_of_dGet_ne _ _ hin
      split
      · exact Or.inr (dGet_dSet_self _ _ _ h2mem)
      · split
        · exact Or.inl (dGet_dSet_self _ _ _ h1mem)
        · exact Or.inl (dGet_dSet_self _ _ _ h1mem)
    · rename_i hcond
      by_cases h2 : dMem p.2 a = true
      · right
        have : ¬ (dGet p.2 a ≠ 0) := by
          intro hne
          exact hcond (by simp [h2, hne])
        omega
      · exact Or.inr (dGet_of_not_dMem _ _ (Bool.not_eq_true _ ▸ h2))

theorem nettingStep_zero_pres (p : AMap × AMap) (b a : Addr)
    (h : dGet p.1 a = 0 ∨ dGet p.2 a = 0) :
    dGet (nettingStep p b).1 a = 0 ∨ dGet (nettingStep p b).2 a = 0 := by
  by_cases hab : a = b
  · subst hab
    unfold nettingStep
    split
    · rename_i hin
      exact Or.inl hin
    · rename_i hin
      have hout : dGet p.2 a = 0 := by
        rcases h with h | h
        · exact absurd h hin
        · exact h
      split
      · rename_i hcond
        rcases Bool.and_eq_true_iff.mp hcond with ⟨_, hne⟩
        rw [hout] at hne
        simp at hne
      · exact Or.inr hout
  · obtain ⟨h1, h2⟩ := nettingStep_frame p b a hab
    rw [h1, h2]
    exact h

theorem netting_fold_diff (l : List Addr) (p : AMap × AMap) (a : Addr) :
    dGet (l.foldl nettingStep p).1 a - dGet (l.foldl nettingStep p).2 a =
    dGet p.1 a - dGet p.2 a := by
  induction l generalizing p with
  | nil => rfl
  | cons b t ih =>
    simp only [List.foldl_cons]
    rw [ih (nettingStep p b)]
    exact nettingStep_diff p b a

theorem netting_fold_zero_pres (l : List Addr) (p : AMap × AMap) (a : Addr)
    (h : dGet p.1 a = 0 ∨ dGet p.2 a = 0) :
    dGet (l.foldl nettingStep p).1 a = 0 ∨ dGet (l.foldl nettingStep p).2 a = 0 := by
  induction l generalizing p with
  | nil => exact h
  | cons b t ih =>
    simp only [List.foldl_cons]
    exact ih (nettingStep p b) (nettingStep_zero_pres p b a h)

theorem netting_fold_zero (l : List Addr) (p : AMap × AMap) (a : Addr) (ha : a ∈ l) :
    dGet (l.foldl nettingStep p).1 a = 0 ∨ dGet (l.foldl nettingStep p).2 a = 0 := by
  induction l generalizing p with
  | nil => cases ha
  | cons b t ih =>
    simp only [List.foldl_cons]
    rcases List.mem_cons.mp ha with hb | ht
    · subst hb
      exact netting_fold_zero_pres t (nettingStep p a) a (nettingStep_zero_self p a)
    · exact ih (nettingStep p b) ht

/-- C1: for every transaction and every address present in both the raw
inbound-amount map and the raw outbound-amount map, after the netting pass
at most one side is nonzero (both are zero when the raw amounts are equal),
and `netted_in - netted_out` equals `raw_in - raw_out` for that address. -/
theorem claim_C1_netting_correctness (resolve : Nat → Nat → Addr × Int)
    (vins : List VIn) (vouts : List VOut) (a : Addr)
    (hin : dMem (in_amount_map resolve vins) a = true)
    (hout : dMem (out_amount_map vouts) a = true) :
    (netted_in resolve vins vouts a = 0 ∨ netted_out resolve vins vouts a = 0) ∧
    (raw_in resolve vins a = raw_out vouts a →
      netted_in resolve vins vouts a = 0 ∧ netted_out resolve vins vouts a = 0) ∧
    netted_in resolve vins vouts a - netted_out resolve vins vouts a =
      raw_in resolve vins a - raw_out vouts a := by
  have hdiff := netting_fold_diff ((in_amount_map resolve vins).map Prod.fst)
    (in_amount_map resolve vins, out_amount_map vouts) a
  have hzero := netting_fold_zero ((in_amount_map resolve vins).map Prod.fst)
    (in_amount_map resolve vins, out_amount_map vouts) a
    (mem_keys_of_dMem _ _ hin)
  constructor
  · exact hzero
  constructor
  · intro heq
    simp only [netted_in, netted_out, netting_pass, raw_in, raw_out] at *
    omega
  · simp only [netted_in, netted_out, netting_pass, raw_in, raw_out] at *
    omega

/-- Witness for C1 at a concrete transaction: one resolved input of 5 to
address "A", outputs of 3 to "A" and 2 to "B"; the netting leaves
`netted_in "A" = 2` and `netted_out "A" = 0`. -/
theorem claim_C1_witness :
    (netted_in (fun _ _ => ("A", 5)) [⟨1, 0⟩] [⟨"A", 3⟩, ⟨"B", 2⟩] "A" = 0 ∨
      netted_out (fun _ _ => ("A", 5)) [⟨1, 0⟩] [⟨"A", 3⟩, ⟨"B", 2⟩] "A" = 0) ∧
    (raw_in (fun _ _ => ("A", 5)) [⟨1, 0⟩] "A" = raw_out [⟨"A", 3⟩, ⟨"B", 2⟩] "A" →
      netted_in (fun _ _ => ("A", 5)) [⟨1, 0⟩] [⟨"A", 3⟩, ⟨"B", 2⟩] "A" = 0 ∧
      netted_out (fun _ _ => ("A", 5)) [⟨1, 0⟩] [⟨"A", 3⟩, ⟨"B", 2⟩] "A" = 0) ∧
    netted_in (fun _ _ => ("A", 5)) [⟨1, 0⟩] [⟨"A", 3⟩, ⟨"B", 2⟩] "A" -
      netted_out (fun _ _ => ("A", 5)) [⟨1, 0⟩] [⟨"A", 3⟩, ⟨"B", 2⟩] "A" =
      raw_in (fun _ _ => ("A", 5)) [⟨1, 0⟩] "A" - raw_out [⟨"A", 3⟩, ⟨"B", 2⟩] "A" :=
  claim_C1_netting_correctness (fun _ _ => ("A", 5)) [⟨1, 0⟩] [⟨"A", 3⟩, ⟨"B", 2⟩] "A"
    (by decide) (by decide)

/-! ## Backfill range partition lemmas -/

theorem thread_depth_eq (s l : Int) (n : Nat) :
    thread_depth s l n = (l - s) / (n : Int) :=
  Int.fdiv_eq_ediv (l - s) (Int.natCast_nonneg n)

theorem restHeight_eq (s l : Int) (n : Nat) :
    restHeight s l n = (l - s) % (n : Int) :=
  Int.fmod_eq_emod (l - s) (Int.natCast_nonneg n)

theorem partition_facts (s l : Int) (n : Nat) (h1 : s ≤ l) (h2 : 1 ≤ n) :
    0 ≤ thread_depth s l n ∧ 0 ≤ restHeight s l n ∧ restHeight s l n < (n : Int) ∧
    (n : Int) * thread_depth s l n + restHeight s l n = l - s := by
  rw [thread_depth_eq, restHeight_eq]
  have hn0 : (0 : Int) < (n : Int) := by omega
  refine ⟨Int.ediv_nonneg (by linarith) (le_of_lt hn0), ?_, ?_, ?_⟩
  · exact Int.emod_nonneg (l - s) (ne_of_gt hn0)
  · exact Int.emod_lt_of_pos (l - s) hn0
  · exact Int.ediv_add_emod (l - s) (n : Int)

theorem worker_last_final (s l : Int) (n : Nat) (h1 : s ≤ l) (h2 : 1 ≤ n) :
    worker_last s l n (n - 1) = l := by
  obtain ⟨hd, hr, hrn, hid⟩ := partition_facts s l n h1 h2
  unfold worker_last
  rw [if_pos rfl]
  have hc : ((n - 1 : Nat) : Int) + 1 = (n : Int) := by omega
  rw [hc]
  linarith

theorem worker_start_ge (s l : Int) (n : Nat) (h1 : s ≤ l) (h2 : 1 ≤ n) (i : Nat) :
    s ≤ worker_start s l n i := by
  obtain ⟨hd, hr, hrn, hid⟩ := partition_facts s l n h1 h2
  unfold worker_start
  have hmul : 0 ≤ (i : Int) * thread_depth s l n :=
    mul_nonneg (Int.natCast_nonneg i) hd
  linarith

theorem worker_last_le (s l : Int) (n : Nat) (h1 : s ≤ l) (h2 : 1 ≤ n) (i : Nat)
    (hi : i < n) : worker_last s l n i ≤ l := by
  obtain ⟨hd, hr, hrn, hid⟩ := partition_facts s l n h1 h2
  by_cases hin : i = n - 1
  · rw [hin, worker_last_final s l n h1 h2]
  · unfold worker_last
    rw [if_neg hin]
    have hle : ((i : Int) + 1) ≤ (n : Int) := by omega
    have hmul : ((i : Int) + 1) * thread_depth s l n ≤ (n : Int) * thread_depth s l n :=
      mul_le_mul_of_nonneg_right hle hd
    linarith

theorem worker_no_overlap (s l : Int) (n : Nat) (h1 : s ≤ l) (h2 : 1 ≤ n)
    (i j : Nat) (h : Int) (hij : i < j) (hj : j < n)
    (hih : h ≤ worker_last s l n i) (hjh : worker_start s l n j ≤ h) : False := by
  obtain ⟨hd, hr, hrn, hid⟩ := partition_facts s l n h1 h2
  have hi_ne : i ≠ n - 1 := by omega
  unfold worker_last at hih
  rw [if_neg hi_ne] at hih
  unfold worker_start at hjh
  have hle : ((i : Int) + 1) ≤ (j : Int) := by omega
  have hmul : ((i : Int) + 1) * thread_depth s l n ≤ (j : Int) * thread_depth s l n :=
    mul_le_mul_of_nonneg_right hle hd
  linarith

theorem worker_cover (s l : Int) (n : Nat) (h1 : s ≤ l) (h2 : 1 ≤ n) (h : Int)
    (hs : s ≤ h) (hl : h ≤ l) :
    ∃ i : Nat, i < n ∧ worker_start s l n i ≤ h ∧ h ≤ worker_last s l n i := by
  obtain ⟨hd, hr, hrn, hid⟩ := partition_facts s l n h1 h2
  by_cases hd0 : thread_depth s l n = 0
  · refine ⟨n - 1, by omega, ?_, ?_⟩
    · unfold worker_start
      rw [hd0]
      simpa using hs
    · rw [worker_last_final s l n h1 h2]
      exact hl
  · have hdpos : 0 < thread_depth s l n := lt_of_le_of_ne hd (Ne.symm hd0)
    have hq0 : 0 ≤ (h - s) / thread_depth s l n :=
      Int.ediv_nonneg (by linarith) (le_of_lt hdpos)
    have hqmul : (h - s) / thread_depth s l n * thread_depth s l n ≤ h - s :=
      Int.ediv_mul_le (h - s) (ne_of_gt hdpos)
    have hlt : h - s < ((h - s) / thread_depth s l n + 1) * thread_depth s l n :=
      Int.lt_ediv_add_one_mul_self (h - s) hdpos
    by_cases hqn : (n : Int) - 1 ≤ (h - s) / thread_depth s l n
    · refine ⟨n - 1, by omega, ?_, ?_⟩
      · unfold worker_start
        have hc : ((n - 1 : Nat) : Int) ≤ (h - s) / thread_depth s l n := by omega
        have hmul : ((n - 1 : Nat) : Int) * thread_depth s l n ≤
            (h - s) / thread_depth s l n * thread_depth s l n :=
          mul_le_mul_of_nonneg_right hc (le_of_lt hdpos)
        linarith
      · rw [worker_last_final s l n h1 h2]
        exact hl
    · push_neg at hqn
      refine ⟨((h - s) / thread_depth s l n).toNat, by omega, ?_, ?_⟩
      · unfold worker_start
        rw [Int.toNat_of_nonneg hq0]
        linarith
      · have hne : ((h - s) / thread_depth s l n).toNat ≠ n - 1 := by omega
        unfold worker_last
        rw [if_neg hne, Int.toNat_of_nonneg hq0]
        linarith

/-- C3: for every start height, end height and worker count, the sub-ranges
`[start + i*depth, start + (i+1)*depth - 1]` (the final worker absorbing the
remainder) are contiguous, the final sub-range ends exactly at the end
height, every height of `[start, end]` lies in exactly one sub-range, and no
height outside `[start, end]` is assigned. -/
theorem claim_C3_range_partition_complete (s l : Int) (n : Nat)
    (h1 : s ≤ l) (h2 : 1 ≤ n) :
    worker_last s l n (n - 1) = l ∧
    (∀ i : Nat, i + 1 < n → worker_start s l n (i + 1) = worker_last s l n i + 1) ∧
    (∀ h : Int, (s ≤ h ∧ h ≤ l) ↔
      ∃ i : Nat, i < n ∧ worker_start s l n i ≤ h ∧ h ≤ worker_last s l n i) ∧
    (∀ i j : Nat, ∀ h : Int, i < n → j < n →
      worker_start s l n i ≤ h → h ≤ worker_last s l n i →
      worker_start s l n j ≤ h → h ≤ worker_last s l n j → i = j) := by
  refine ⟨worker_last_final s l n h1 h2, ?_, ?_, ?_⟩
  · intro i hi
    unfold worker_start worker_last
    rw [if_neg (by omega : ¬ i = n - 1)]
    push_cast
    ring
  · intro h
    constructor
    · intro hh
      exact worker_cover s l n h1 h2 h hh.1 hh.2
    · rintro ⟨i, hi, hsi, hli⟩
      exact ⟨le_trans (worker_start_ge s l n h1 h2 i) hsi,
        le_trans hli (worker_last_le s l n h1 h2 i hi)⟩
  · intro i j h hi hj hsi hli hsj hlj
    rcases Nat.lt_trichotomy i j with hij | hij | hij
    · exact (worker_no_overlap s l n h1 h2 i j h hij hj hli hsj).elim
    · exact hij
    · exact (worker_no_overlap s l n h1 h2 j i h hij hi hlj hsi).elim

/-- Witness for C3 at start 0, end 10, three workers: the final worker's
sub-range ends exactly at height 10 (depth 3, remainder 1). -/
theorem claim_C3_witness : worker_last 0 10 3 2 = 10 :=
  (claim_C3_range_partition_complete 0 10 3 (by decide) (by decide)).1

/-! ## Startup resume point (C5) -/

/-- Counterexample to C5: with no overrides, latest indexed height 5 and
chain tip 100, the height handed to the head-follower loop is 101
(`last_height + 1`), not `latestIndexedHeight() + 1 = 6`. -/
theorem claim_C5_counterexample :
    head_follower_start_height none 100 = 101 ∧
    graph_last_block_height 5 = 6 ∧
    head_follower_start_height none 100 ≠ graph_last_block_height 5 := by
  refine ⟨rfl, rfl, ?_⟩
  decide

/-- C5 amended: when no explicit start-height override is given, it is the
backfill start height that equals `latestIndexedHeight() + 1`; the head
follower is started from `last_height + 1`, one past the chain tip sampled
at startup (or past the end-height override when the tip is not larger). -/
theorem claim_C5_start_heights (startOverride lastOverride : Option Int)
    (latestIndexed chainTip : Int) (hno : startOverride = none) :
    startup_start_height startOverride latestIndexed = latestIndexed + 1 ∧
    head_follower_start_height lastOverride chainTip =
      startup_last_height lastOverride chainTip + 1 := by
  subst hno
  exact ⟨rfl, rfl⟩

/-- Witness for the amended C5 at latest indexed height 5, chain tip 100,
no overrides. -/
theorem claim_C5_witness :
    startup_start_height none 5 = 5 + 1 ∧
    head_follower_start_height none 100 = startup_last_height none 100 + 1 :=
  claim_C5_start_heights none none 5 100 rfl

/-! ## Worker cursor reset (C6) -/

/-- C6 evaluated at the failing input: a backfill worker whose sub-range end
is 13 (so one inner pass indexes heights 0 and 1) and whose writes all
succeed requests the heights 0, 1, 0, 1 over two outer-loop iterations:
after committing heights 0 and 1 the outer loop resets the cursor to the
fixed `start_height` and re-requests the already committed height 0, so the
requested heights are neither strictly increasing nor free of revisits. -/
theorem claim_C6_cursor_reset :
    backfill_run 0 13 2 = [0, 1, 0, 1] ∧
    ¬ (backfill_run 0 13 2).Nodup ∧
    ¬ List.Pairwise (fun a b : Int => a < b) (backfill_run 0 13 2) := by
  refine ⟨rfl, ?_, ?_⟩
  · decide
  · decide

/-! ## Confirmation margin of the head follower (C7) -/

theorem mem_heightsFromTo (a b h : Int) (hm : h ∈ heightsFromTo a b) :
    a ≤ h ∧ h ≤ b := by
  unfold heightsFromTo at hm
  rw [List.mem_map] at hm
  obtain ⟨k, hk, hke⟩ := hm
  rw [List.mem_range] at hk
  omega

theorem head_follower_pass_margin (startH tip h t : Int)
    (hm : (h, t) ∈ head_follower_pass startH tip) : h ≤ t - 6 := by
  simp only [head_follower_pass] at hm
  split at hm
  · simp at hm
  · split at hm
    · simp at hm
    · obtain ⟨h0, hh0, heq⟩ := List.mem_map.mp hm
      injection heq with e1 e2
      subst e1
      subst e2
      have := mem_heightsFromTo _ _ _ hh0
      omega

/-- C7: every block request (height, tip sample in force) made by the
head-follower loop satisfies height ≤ tip − 6: the loop never requests a
block above the chain tip minus the confirmation depth (the code is in fact
stricter, staying 12 below the sampled tip). -/
theorem claim_C7_confirmation_margin (startH : Int) (tipAt : Nat → Int)
    (fuel : Nat) (h t : Int)
    (hm : (h, t) ∈ head_follower_run startH tipAt fuel) : h ≤ t - 6 := by
  induction fuel with
  | zero => simp [head_follower_run] at hm
  | succ n ih =>
    simp only [head_follower_run, List.mem_append] at hm
    rcases hm with hm | hm
    · exact head_follower_pass_margin startH (tipAt n) h t hm
    · exact ih hm

/-- Witness for C7: with the chain tip at 20 the head follower requests
height 0, which satisfies the margin. -/
theorem claim_C7_witness : (0 : Int) ≤ 20 - 6 :=
  claim_C7_confirmation_margin 0 (fun _ => 20) 1 0 20 (by decide)

/-! ## Flow-control governor and cursor advance (C8, C9) -/

/-- C8: for a block that is actually indexed (nonzero transaction count), a
failed write leaves the cursor at the same height with a 30 second sleep
(the same height is retried next), a successful write advances the cursor
and sleeps the configured delay exactly when the transaction count exceeds
the threshold, and the cursor moves past the height only when the write
committed. -/
theorem claim_C8_retry_same_height {σ : Type} (writeBlock : σ → σ × Bool)
    (threshold delay : Nat) (numTransactions : Nat) (s : σ) (h : Int)
    (hne : numTransactions ≠ 0) :
    ((writeBlock s).2 = false →
      index_block_iteration writeBlock threshold delay numTransactions s h =
        { store := (writeBlock s).1, next_height := h, invoked_indexer := true,
          committed := false, sleep_seconds := 30 }) ∧
    ((writeBlock s).2 = true →
      index_block_iteration writeBlock threshold delay numTransactions s h =
        { store := (writeBlock s).1, next_height := h + 1, invoked_indexer := true,
          committed := true,
          sleep_seconds := if threshold < numTransactions then delay else 0 }) ∧
    ((index_block_iteration writeBlock threshold delay numTransactions s h).next_height ≠ h →
      (index_block_iteration writeBlock threshold delay numTransactions s h).committed = true) := by
  refine ⟨?_, ?_, ?_⟩
  · intro hw
    simp [index_block_iteration, hne, hw]
  · intro hw
    simp [index_block_iteration, hne, hw]
  · intro hnh
    by_cases hw : (writeBlock s).2 = true
    · simp [index_block_iteration, hne, hw]
    · exfalso
      apply hnh
      simp [index_block_iteration, hne, hw]

/-- Witness for C8: a successful write of a 600-transaction block (threshold
500, delay 1) advances the cursor from 10 to 11 and sleeps 1 second. -/
theorem claim_C8_witness :
    ((true : Bool) = false →
      index_block_iteration (fun s : Nat => (s + 1, true)) 500 1 600 0 10 =
        { store := 1, next_height := 10, invoked_indexer := true,
          committed := false, sleep_seconds := 30 }) ∧
    ((true : Bool) = true →
      index_block_iteration (fun s : Nat => (s + 1, true)) 500 1 600 0 10 =
        { store := 1, next_height := 11, invoked_indexer := true,
          committed := true, sleep_seconds := if 500 < 600 then 1 else 0 }) ∧
    ((index_block_iteration (fun s : Nat => (s + 1, true)) 500 1 600 0 10).next_height ≠ 10 →
      (index_block_iteration (fun s : Nat => (s + 1, true)) 500 1 600 0 10).committed = true) :=
  claim_C8_retry_same_height (fun s : Nat => (s + 1, true)) 500 1 600 0 10 (by decide)

/-- C9: a block with an empty transaction list performs no write at all —
for every possible graph creator and writer the store is returned unchanged
and the indexer is never invoked — yet the cursor still advances past the
height. -/
theorem claim_C9_empty_block_no_write {σ : Type} (writeBlock : σ → σ × Bool)
    (threshold delay : Nat) (s : σ) (h : Int) :
    index_block_iteration writeBlock threshold delay 0 s h =
      { store := s, next_height := h + 1, invoked_indexer := false,
        committed := false, sleep_seconds := 0 } :=
  rfl

/-! ## Graph store primitive lemmas -/

theorem hasTx_eq_of_txNodes_eq (g1 g2 : GStore) (h : g1.txNodes = g2.txNodes) (k : Nat) :
    hasTx g1 k = hasTx g2 k := by
  unfold hasTx
  rw [h]

theorem hasAddr_eq_of_addrNodes_eq (g1 g2 : GStore) (h : g1.addrNodes = g2.addrNodes)
    (a : Addr) : hasAddr g1 a = hasAddr g2 a := by
  unfold hasAddr
  rw [h]

theorem txNodes_addEdge (g : GStore) (e : SentEdge) : (addEdge g e).txNodes = g.txNodes := rfl

theorem addrNodes_addEdge (g : GStore) (e : SentEdge) :
    (addEdge g e).addrNodes = g.addrNodes := rfl

theorem edges_addEdge (g : GStore) (e : SentEdge) :
    (addEdge g e).edges = g.edges ++ [e] := rfl

theorem addrNodes_mergeTxNode (g : GStore) (n : TxNode) :
    (mergeTxNode g n).addrNodes = g.addrNodes := by
  unfold mergeTxNode
  split <;> rfl

theorem edges_mergeTxNode (g : GStore) (n : TxNode) :
    (mergeTxNode g n).edges = g.edges := by
  unfold mergeTxNode
  split <;> rfl

theorem txNodes_mergeAddr (g : GStore) (a : Addr) :
    (mergeAddr g a).txNodes = g.txNodes := by
  unfold mergeAddr
  split <;> rfl

theorem edges_mergeAddr (g : GStore) (a : Addr) :
    (mergeAddr g a).edges = g.edges := by
  unfold mergeAddr
  split <;> rfl

theorem hasTx_mergeAddr (g : GStore) (a : Addr) (k : Nat) :
    hasTx (mergeAddr g a) k = hasTx g k :=
  hasTx_eq_of_txNodes_eq _ _ (txNodes_mergeAddr g a) k

theorem hasAddr_mergeTxNode (g : GStore) (n : TxNode) (b : Addr) :
    hasAddr (mergeTxNode g n) b = hasAddr g b :=
  hasAddr_eq_of_addrNodes_eq _ _ (addrNodes_mergeTxNode g n) b

theorem hasTx_mergeTxNode_self (g : GStore) (n : TxNode) :
    hasTx (mergeTxNode g n) n.tx_id = true := by
  unfold mergeTxNode
  by_cases h : hasTx g n.tx_id = true
  · rw [if_pos h]
    exact h
  · rw [if_neg h]
    unfold hasTx
    simp [List.any_append]

theorem hasTx_mergeTxNode_mono (g : GStore) (n : TxNode) (k : Nat)
    (h : hasTx g k = true) : hasTx (mergeTxNode g n) k = true := by
  unfold mergeTxNode
  split
  · exact h
  · unfold hasTx at *
    simp [List.any_append, h]

theorem mergeTxNode_of_hasTx (g : GStore) (n : TxNode)
    (h : hasTx g n.tx_id = true) : mergeTxNode g n = g := by
  unfold mergeTxNode
  rw [if_pos h]

theorem nodup_mergeTxNode (g : GStore) (n : TxNode)
    (h : (g.txNodes.map TxNode.tx_id).Nodup) :
    ((mergeTxNode g n).txNodes.map TxNode.tx_id).Nodup := by
  unfold mergeTxNode
  split
  · exact h
  · rename_i hno
    simp only [List.map_append, List.map_cons, List.map_nil]
    rw [List.nodup_append]
    refine ⟨h, List.nodup_singleton _, ?_⟩
    intro x hx hx2
    simp only [List.mem_singleton] at hx2
    subst hx2
    unfold hasTx at hno
    simp only [List.any_eq_true, beq_iff_eq, not_exists, not_and] at hno
    obtain ⟨m, hm, hme⟩ := List.mem_map.mp hx
    exact hno m hm hme

theorem hasAddr_mergeAddr_self (g : GStore) (a : Addr) :
    hasAddr (mergeAddr g a) a = true := by
  unfold mergeAddr
  by_cases h : hasAddr g a = true
  · rw [if_pos h]
    exact h
  · rw [if_neg h]
    unfold hasAddr
    simp [List.any_append]

theorem hasAddr_mergeAddr_mono (g : GStore) (a b : Addr)
    (h : hasAddr g b = true) : hasAddr (mergeAddr g a) b = true := by
  unfold mergeAddr
  split
  · exact h
  · unfold hasAddr at *
    simp [List.any_append, h]

theorem mergeAddr_of_hasAddr (g : GStore) (a : Addr)
    (h : hasAddr g a = true) : mergeAddr g a = g := by
  unfold mergeAddr
  rw [if_pos h]

theorem nodup_mergeAddr (g : GStore) (a : Addr) (h : g.addrNodes.Nodup) :
    (mergeAddr g a).addrNodes.Nodup := by
  unfold mergeAddr
  split
  · exact h
  · rename_i hno
    rw [List.nodup_append]
    refine ⟨h, List.nodup_singleton _, ?_⟩
    intro x hx hx2
    simp only [List.mem_singleton] at hx2
    subst hx2
    unfold hasAddr at hno
    simp only [List.any_eq_true, beq_iff_eq, not_exists, not_and] at hno
    exact hno x hx rfl

/-! ## Statement-level lemmas: transaction upsert folds -/

theorem addrNodes_merge_tx_fold {α : Type} (f : α → TxNode) (recs : List α) (g : GStore) :
    (merge_tx_fold f recs g).addrNodes = g.addrNodes := by
  induction recs generalizing g with
  | nil => rfl
  | cons r t ih =>
    simp only [merge_tx_fold, List.foldl_cons] at *
    rw [ih (mergeTxNode g (f r)), addrNodes_mergeTxNode]

theorem hasTx_merge_tx_fold_mono {α : Type} (f : α → TxNode) (recs : List α) (g : GStore)
    (k : Nat) (h : hasTx g k = true) : hasTx (merge_tx_fold f recs g) k = true := by
  induction recs generalizing g with
  | nil => exact h
  | cons r t ih =>
    simp only [merge_tx_fold, List.foldl_cons] at *
    exact ih (mergeTxNode g (f r)) (hasTx_mergeTxNode_mono g (f r) k h)

theorem hasTx_merge_tx_fold_self {α : Type} (f : α → TxNode) (recs : List α) (g : GStore)
    (r : α) (hr : r ∈ recs) : hasTx (merge_tx_fold f recs g) (f r).tx_id = true := by
  induction recs generalizing g with
  | nil => cases hr
  | cons r0 t ih =>
    simp only [merge_tx_fold, List.foldl_cons] at *
    rcases List.mem_cons.mp hr with he | ht
    · subst he
      exact hasTx_merge_tx_fold_mono f t (mergeTxNode g (f r)) (f r).tx_id
        (hasTx_mergeTxNode_self g (f r))
    · exact ih (mergeTxNode g (f r0)) ht

theorem merge_tx_fold_all_present {α : Type} (f : α → TxNode) (recs : List α) (g : GStore)
    (h : ∀ r ∈ recs, hasTx g (f r).tx_id = true) : merge_tx_fold f recs g = g := by
  induction recs with
  | nil => rfl
  | cons r t ih =>
    simp only [merge_tx_fold, List.foldl_cons] at *
    rw [mergeTxNode_of_hasTx g (f r) (h r (List.mem_cons_self r t))]
    exact ih (fun r0 hr0 => h r0 (List.mem_cons_of_mem r hr0))

theorem nodup_merge_tx_fold {α : Type} (f : α → TxNode) (recs : List α) (g : GStore)
    (h : (g.txNodes.map TxNode.tx_id).Nodup) :
    ((merge_tx_fold f recs g).txNodes.map TxNode.tx_id).Nodup := by
  induction recs generalizing g with
  | nil => exact h
  | cons r t ih =>
    simp only [merge_tx_fold, List.foldl_cons] at *
    exact ih (mergeTxNode g (f r)) (nodup_mergeTxNode g (f r) h)

/-! ## Statement-level lemmas: edge-creation folds -/

theorem txNodes_edge_step (g : GStore) (a : Addr) (id : Nat) (e : SentEdge) :
    (addEdge (mergeTxNode (mergeAddr g a) (bareTxNode id)) e).txNodes =
    (mergeTxNode (mergeAddr g a) (bareTxNode id)).txNodes := rfl

theorem hasTx_edge_fold_mono {α : Type} (aF : α → Addr) (iF : α → Nat) (eF : α → SentEdge)
    (recs : List α) (g : GStore) (k : Nat) (h : hasTx g k = true) :
    hasTx (edge_fold aF iF eF recs g) k = true := by
  induction recs generalizing g with
  | nil => exact h
  | cons r t ih =>
    simp only [edge_fold, List.foldl_cons] at *
    refine ih _ ?_
    rw [show hasTx (addEdge (mergeTxNode (mergeAddr g (aF r)) (bareTxNode (iF r))) (eF r)) k =
        hasTx (mergeTxNode (mergeAddr g (aF r)) (bareTxNode (iF r))) k from rfl]
    refine hasTx_mergeTxNode_mono _ _ _ ?_
    rw [hasTx_mergeAddr]
    exact h

theorem hasAddr_edge_fold_mono {α : Type} (aF : α → Addr) (iF : α → Nat) (eF : α → SentEdge)
    (recs : List α) (g : GStore) (b : Addr) (h : hasAddr g b = true) :
    hasAddr (edge_fold aF iF eF recs g) b = true := by
  induction recs generalizing g with
  | nil => exact h
  | cons r t ih =>
    simp only [edge_fold, List.foldl_cons] at *
    refine ih _ ?_
    rw [show hasAddr (addEdge (mergeTxNode (mergeAddr g (aF r)) (bareTxNode (iF r))) (eF r)) b =
        hasAddr (mergeTxNode (mergeAddr g (aF r)) (bareTxNode (iF r))) b from rfl]
    rw [hasAddr_mergeTxNode]
    exact hasAddr_mergeAddr_mono g (aF r) b h

theorem edge_fold_self {α : Type} (aF : α → Addr) (iF : α → Nat) (eF : α → SentEdge)
    (recs : List α) (g : GStore) (r : α) (hr : r ∈ recs) :
    hasAddr (edge_fold aF iF eF recs g) (aF r) = true ∧
    hasTx (edge_fold aF iF eF recs g) (iF r) = true := by
  induction recs generalizing g with
  | nil => cases hr
  | cons r0 t ih =>
    simp only [edge_fold, List.foldl_cons] at *
    rcases List.mem_cons.mp hr with he | ht
    · subst he
      constructor
      · refine hasAddr_edge_fold_mono aF iF eF t _ (aF r) ?_
        rw [show hasAddr (addEdge (mergeTxNode (mergeAddr g (aF r)) (bareTxNode (iF r))) (eF r))
            (aF r) = hasAddr (mergeTxNode (mergeAddr g (aF r)) (bareTxNode (iF r))) (aF r)
            from rfl]
        rw [hasAddr_mergeTxNode]
        exact hasAddr_mergeAddr_self g (aF r)
      · refine hasTx_edge_fold_mono aF iF eF t _ (iF r) ?_
        rw [show hasTx (addEdge (mergeTxNode (mergeAddr g (aF r)) (bareTxNode (iF r))) (eF r))
            (iF r) = hasTx (mergeTxNode (mergeAddr g (aF r)) (bareTxNode (iF r))) (iF r)
            from rfl]
        exact hasTx_mergeTxNode_self (mergeAddr g (aF r)) (bareTxNode (iF r))
    · exact ih _ ht

theorem edge_fold_nodes_all_present {α : Type} (aF : α → Addr) (iF : α → Nat)
    (eF : α → SentEdge) (recs : List α) (g : GStore)
    (h : ∀ r ∈ recs, hasAddr g (aF r) = true ∧ hasTx g (iF r) = true) :
    (edge_fold aF iF eF recs g).txNodes = g.txNodes ∧
    (edge_fold aF iF eF recs g).addrNodes = g.addrNodes := by
  induction recs generalizing g with
  | nil => exact ⟨rfl, rfl⟩
  | cons r t ih =>
    simp only [edge_fold, List.foldl_cons] at *
    obtain ⟨ha, htx⟩ := h r (List.mem_cons_self r t)
    have hstep : (addEdge (mergeTxNode (mergeAddr g (aF r)) (bareTxNode (iF r))) (eF r)).txNodes
        = g.txNodes ∧
        (addEdge (mergeTxNode (mergeAddr g (aF r)) (bareTxNode (iF r))) (eF r)).addrNodes
        = g.addrNodes := by
      rw [mergeAddr_of_hasAddr g (aF r) ha]
      rw [mergeTxNode_of_hasTx g (bareTxNode (iF r)) htx]
      exact ⟨rfl, rfl⟩
    have hrest := ih (addEdge (mergeTxNode (mergeAddr g (aF r)) (bareTxNode (iF r))) (eF r))
      (by
        intro r0 hr0
        obtain ⟨ha0, ht0⟩ := h r0 (List.mem_cons_of_mem r hr0)
        constructor
        · rw [hasAddr_eq_of_addrNodes_eq _ g hstep.2]
          exact ha0
        · rw [hasTx_eq_of_txNodes_eq _ g hstep.1]
          exact ht0)
    rw [hrest.1, hrest.2, hstep.1, hstep.2]
    exact ⟨rfl, rfl⟩

theorem nodup_edge_fold {α : Type} (aF : α → Addr) (iF : α → Nat) (eF : α → SentEdge)
    (recs : List α) (g : GStore) (hT : (g.txNodes.map TxNode.tx_id).Nodup)
    (hA : g.addrNodes.Nodup) :
    ((edge_fold aF iF eF recs g).txNodes.map TxNode.tx_id).Nodup ∧
    (edge_fold aF iF eF recs g).addrNodes.Nodup := by
  induction recs generalizing g with
  | nil => exact ⟨hT, hA⟩
  | cons r t ih =>
    simp only [edge_fold, List.foldl_cons] at *
    refine ih _ ?_ ?_
    · rw [show (addEdge (mergeTxNode (mergeAddr g (aF r)) (bareTxNode (iF r))) (eF r)).txNodes
          = (mergeTxNode (mergeAddr g (aF r)) (bareTxNode (iF r))).txNodes from rfl]
      refine nodup_mergeTxNode _ _ ?_
      rw [txNodes_mergeAddr]
      exact hT
    · rw [show (addEdge (mergeTxNode (mergeAddr g (aF r)) (bareTxNode (iF r))) (eF r)).addrNodes
          = (mergeTxNode (mergeAddr g (aF r)) (bareTxNode (iF r))).addrNodes from rfl]
      rw [addrNodes_mergeTxNode]
      exact nodup_mergeAddr g (aF r) hA

/-! ## Writer control-flow lemmas (C2) -/

theorem batch_loop_ok (applyB : List BTx → GStore → GStore) (failAt : Nat → Bool)
    (bs : List (List BTx)) (i : Nat) (t : Neo4jTx)
    (hok : ∀ j, j < bs.length → failAt (i + j) = false) :
    batch_loop applyB failAt bs i t =
      Except.ok { base := t.base,
                  working := bs.foldl (fun g b => applyB b g) t.working,
                  phase := t.phase } := by
  induction bs generalizing i t with
  | nil => rfl
  | cons b rest ih =>
    have hi : failAt i = false := by
      have := hok 0 (by simp)
      simpa using this
    simp only [batch_loop, hi, Bool.false_eq_true, if_false, List.foldl_cons]
    rw [ih (i + 1) (tx_run (applyB b) t)
      (fun j hj => by
        have := hok (j + 1) (by simpa using Nat.succ_lt_succ hj)
        rw [show i + 1 + j = i + (j + 1) by omega]
        exact this)]
    rfl

theorem batch_loop_error (applyB : List BTx → GStore → GStore) (failAt : Nat → Bool)
    (bs : List (List BTx)) (i : Nat) (t : Neo4jTx)
    (hbad : ∃ j, j < bs.length ∧ failAt (i + j) = true) :
    ∃ t1 : Neo4jTx, batch_loop applyB failAt bs i t = Except.error t1 ∧
      t1.base = t.base ∧ t1.phase = t.phase := by
  induction bs generalizing i t with
  | nil =>
    obtain ⟨j, hj, _⟩ := hbad
    simp at hj
  | cons b rest ih =>
    by_cases hi : failAt i = true
    · refine ⟨t, ?_, rfl, rfl⟩
      simp [batch_loop, hi]
    · have hi0 : failAt i = false := by
        simpa using hi
      simp only [batch_loop, hi0, Bool.false_eq_true, if_false]
      obtain ⟨j, hj, hjt⟩ := hbad
      have hjne : j ≠ 0 := by
        intro h0
        subst h0
        simp only [Nat.add_zero] at hjt
        exact hi hjt
      obtain ⟨j0, rfl⟩ := Nat.exists_eq_succ_of_ne_zero hjne
      obtain ⟨t1, he, hb, hp⟩ := ih (i + 1) (tx_run (applyB b) t)
        ⟨j0, by simpa using Nat.lt_of_succ_lt_succ hj,
          by rw [show i + 1 + j0 = i + (j0 + 1) by omega]; exact hjt⟩
      exact ⟨t1, he, hb, hp⟩

/-- Full behaviour of the shared try/except/finally protocol of both batched
writers. -/
theorem run_writer_spec (applyB : List BTx → GStore → GStore) (txs : List BTx)
    (batch_size : Nat) (failAt : Nat → Bool) (g : GStore) :
    tx_closed (run_writer applyB txs batch_size failAt g).2 = true ∧
    ((∃ j, j < (chunks batch_size txs).length ∧ failAt j = true) →
      (run_writer applyB txs batch_size failAt g).1 = false ∧
      tx_visible (run_writer applyB txs batch_size failAt g).2 = g) ∧
    ((∀ j, j < (chunks batch_size txs).length → failAt j = false) →
      (run_writer applyB txs batch_size failAt g).1 = true ∧
      (run_writer applyB txs batch_size failAt g).2.phase = TxPhase.isCommitted ∧
      tx_visible (run_writer applyB txs batch_size failAt g).2 =
        (chunks batch_size txs).foldl (fun g b => applyB b g) g) := by
  by_cases hbad : ∃ j, j < (chunks batch_size txs).length ∧ failAt j = true
  · obtain ⟨t1, he, hb, hp⟩ :=
      batch_loop_error applyB failAt (chunks batch_size txs) 0 (tx_begin g)
        (by
          obtain ⟨j, hj, hjt⟩ := hbad
          exact ⟨j, hj, by simpa using hjt⟩)
    have hrw : run_writer applyB txs batch_size failAt g =
        (false, run_finally (tx_rollback t1)) := by
      unfold run_writer
      rw [he]
    refine ⟨?_, ?_, ?_⟩
    · rw [hrw]
      rfl
    · intro _
      rw [hrw]
      refine ⟨rfl, ?_⟩
      simp only [tx_visible, run_finally, tx_rollback, tx_closed, tx_close]
      simp [hb, tx_begin]
    · intro hall
      obtain ⟨j, hj, hjt⟩ := hbad
      rw [hall j hj] at hjt
      cases hjt
  · have hall : ∀ j, j < (chunks batch_size txs).length → failAt j = false := by
      intro j hj
      by_contra hc
      exact hbad ⟨j, hj, by simpa using hc⟩
    have hok := batch_loop_ok applyB failAt (chunks batch_size txs) 0 (tx_begin g)
      (fun j hj => by simpa using hall j hj)
    have hrw : run_writer applyB txs batch_size failAt g =
        (true, run_finally (tx_commit
          { base := (tx_begin g).base,
            working := (chunks batch_size txs).foldl (fun g b => applyB b g)
              (tx_begin g).working,
            phase := (tx_begin g).phase })) := by
      unfold run_writer
      rw [hok]
    refine ⟨?_, ?_, ?_⟩
    · rw [hrw]
      rfl
    · intro hex
      obtain ⟨j, hj, hjt⟩ := hex
      rw [hall j hj] at hjt
      cases hjt
    · intro _
      rw [hrw]
      exact ⟨rfl, rfl, rfl⟩

/-- C2: for every block handed to either batched writer, an error during any
batch rolls back the whole unit of work — the visible store is exactly the
store before the write and the writer returns False — while an error-free
run commits and returns True; and on every exit path the unit of work ends
closed. Stated for both the funds_flow_v2 and the funds_flow writer. -/
theorem claim_C2_block_atomicity (resolve : Nat → Nat → Addr × Int) (txs : List BTx)
    (batch_size : Nat) (failAt : Nat → Bool) (g : GStore)
    (hbs : batch_size ≠ 0) :
    (tx_closed (create_graph_focused_on_money_flow_v2 resolve txs batch_size failAt g).2
        = true ∧
      ((∃ j, j < (chunks batch_size txs).length ∧ failAt j = true) →
        (create_graph_focused_on_money_flow_v2 resolve txs batch_size failAt g).1 = false ∧
        tx_visible (create_graph_focused_on_money_flow_v2 resolve txs batch_size failAt g).2
          = g) ∧
      ((∀ j, j < (chunks batch_size txs).length → failAt j = false) →
        (create_graph_focused_on_money_flow_v2 resolve txs batch_size failAt g).1 = true ∧
        (create_graph_focused_on_money_flow_v2 resolve txs batch_size failAt g).2.phase
          = TxPhase.isCommitted)) ∧
    (tx_closed (create_graph_focused_on_money_flow_v1 txs batch_size failAt g).2 = true ∧
      ((∃ j, j < (chunks batch_size txs).length ∧ failAt j = true) →
        (create_graph_focused_on_money_flow_v1 txs batch_size failAt g).1 = false ∧
        tx_visible (create_graph_focused_on_money_flow_v1 txs batch_size failAt g).2 = g) ∧
      ((∀ j, j < (chunks batch_size txs).length → failAt j = false) →
        (create_graph_focused_on_money_flow_v1 txs batch_size failAt g).1 = true ∧
        (create_graph_focused_on_money_flow_v1 txs batch_size failAt g).2.phase
          = TxPhase.isCommitted)) := by
  obtain ⟨c2, e2, s2⟩ := run_writer_spec (apply_batch_v2 resolve) txs batch_size failAt g
  obtain ⟨c1, e1, s1⟩ := run_writer_spec apply_batch_v1 txs batch_size failAt g
  exact ⟨⟨c2, e2, fun hall => ⟨(s2 hall).1, (s2 hall).2.1⟩⟩,
    ⟨c1, e1, fun hall => ⟨(s1 hall).1, (s1 hall).2.1⟩⟩⟩

/-- Witness for C2: a one-transaction block whose single batch fails is
reported failed and leaves the store empty as before the write. -/
theorem claim_C2_witness :
    (create_graph_focused_on_money_flow_v2 (fun _ _ => ("A", 7))
      [{ tx_id := 1, timestamp := 10, block_height := 100, is_coinbase := true,
         vins := [], vouts := [{ address := "X", value_satoshi := 50 }] }]
      8 (fun _ => true) emptyStore).1 = false ∧
    tx_visible (create_graph_focused_on_money_flow_v2 (fun _ _ => ("A", 7))
      [{ tx_id := 1, timestamp := 10, block_height := 100, is_coinbase := true,
         vins := [], vouts := [{ address := "X", value_satoshi := 50 }] }]
      8 (fun _ => true) emptyStore).2 = emptyStore :=
  ((claim_C2_block_atomicity (fun _ _ => ("A", 7))
      [{ tx_id := 1, timestamp := 10, block_height := 100, is_coinbase := true,
         vins := [], vouts := [{ address := "X", value_satoshi := 50 }] }]
      8 (fun _ => true) emptyStore (by decide)).1.2.1 ⟨0, by decide, rfl⟩)

/-! ## Batch-level upsert lemmas (C4) -/

theorem apply_batch_v2_hasTx_mono (resolve : Nat → Nat → Addr × Int) (b : List BTx)
    (g : GStore) (k : Nat) (h : hasTx g k = true) :
    hasTx (apply_batch_v2 resolve b g) k = true := by
  simp only [apply_batch_v2]
  refine hasTx_edge_fold_mono _ _ _ _ _ _ ?_
  refine hasTx_edge_fold_mono _ _ _ _ _ _ ?_
  exact hasTx_merge_tx_fold_mono _ _ _ _ h

theorem apply_batch_v2_hasAddr_mono (resolve : Nat → Nat → Addr × Int) (b : List BTx)
    (g : GStore) (a : Addr) (h : hasAddr g a = true) :
    hasAddr (apply_batch_v2 resolve b g) a = true := by
  simp only [apply_batch_v2]
  refine hasAddr_edge_fold_mono _ _ _ _ _ _ ?_
  refine hasAddr_edge_fold_mono _ _ _ _ _ _ ?_
  show hasAddr (merge_tx_fold txNodeOfRec (batch_records_v2 resolve b).1 g) a = true
  rw [hasAddr_eq_of_addrNodes_eq _ g (addrNodes_merge_tx_fold txNodeOfRec _ g)]
  exact h

theorem apply_batch_v2_self (resolve : Nat → Nat → Addr × Int) (b : List BTx) (g : GStore) :
    (∀ r ∈ (batch_records_v2 resolve b).1,
      hasTx (apply_batch_v2 resolve b g) r.tx_id = true) ∧
    (∀ r ∈ (batch_records_v2 resolve b).2.1,
      hasAddr (apply_batch_v2 resolve b g) r.address = true ∧
      hasTx (apply_batch_v2 resolve b g) r.tx_id = true) ∧
    (∀ r ∈ (batch_records_v2 resolve b).2.2,
      hasAddr (apply_batch_v2 resolve b g) r.address = true ∧
      hasTx (apply_batch_v2 resolve b g) r.tx_id = true) := by
  simp only [apply_batch_v2]
  refine ⟨?_, ?_, ?_⟩
  · intro r hr
    refine hasTx_edge_fold_mono _ _ _ _ _ _ ?_
    refine hasTx_edge_fold_mono _ _ _ _ _ _ ?_
    exact hasTx_merge_tx_fold_self txNodeOfRec _ _ r hr
  · intro r hr
    constructor
    · refine hasAddr_edge_fold_mono _ _ _ _ _ _ ?_
      exact (edge_fold_self _ _ _ _ _ r hr).1
    · refine hasTx_edge_fold_mono _ _ _ _ _ _ ?_
      exact (edge_fold_self _ _ _ _ _ r hr).2
  · intro r hr
    exact edge_fold_self _ _ _ _ _ r hr

theorem apply_batch_v2_nodes_idem (resolve : Nat → Nat → Addr × Int) (b : List BTx)
    (g : GStore)
    (h1 : ∀ r ∈ (batch_records_v2 resolve b).1, hasTx g r.tx_id = true)
    (h2 : ∀ r ∈ (batch_records_v2 resolve b).2.1,
      hasAddr g r.address = true ∧ hasTx g r.tx_id = true)
    (h3 : ∀ r ∈ (batch_records_v2 resolve b).2.2,
      hasAddr g r.address = true ∧ hasTx g r.tx_id = true) :
    (apply_batch_v2 resolve b g).txNodes = g.txNodes ∧
    (apply_batch_v2 resolve b g).addrNodes = g.addrNodes := by
  simp only [apply_batch_v2]
  rw [show stmt_merge_transactions_v2 (batch_records_v2 resolve b).1 g = g from
    merge_tx_fold_all_present txNodeOfRec _ g h1]
  have hin : (stmt_create_in_edges (batch_records_v2 resolve b).2.1 g).txNodes = g.txNodes ∧
      (stmt_create_in_edges (batch_records_v2 resolve b).2.1 g).addrNodes = g.addrNodes :=
    edge_fold_nodes_all_present _ _ _ _ g h2
  have h3in : ∀ r ∈ (batch_records_v2 resolve b).2.2,
      hasAddr (stmt_create_in_edges (batch_records_v2 resolve b).2.1 g) r.address = true ∧
      hasTx (stmt_create_in_edges (batch_records_v2 resolve b).2.1 g) r.tx_id = true := by
    intro r hr
    obtain ⟨ha, ht⟩ := h3 r hr
    exact ⟨by rw [hasAddr_eq_of_addrNodes_eq _ g hin.2]; exact ha,
      by rw [hasTx_eq_of_txNodes_eq _ g hin.1]; exact ht⟩
  have hout : (stmt_create_out_edges (batch_records_v2 resolve b).2.2
        (stmt_create_in_edges (batch_records_v2 resolve b).2.1 g)).txNodes =
      (stmt_create_in_edges (batch_records_v2 resolve b).2.1 g).txNodes ∧
      (stmt_create_out_edges (batch_records_v2 resolve b).2.2
        (stmt_create_in_edges (batch_records_v2 resolve b).2.1 g)).addrNodes =
      (stmt_create_in_edges (batch_records_v2 resolve b).2.1 g).addrNodes :=
    edge_fold_nodes_all_present _ _ _ _ _ h3in
  exact ⟨hout.1.trans hin.1, hout.2.trans hin.2⟩

theorem apply_batch_v2_nodup (resolve : Nat → Nat → Addr × Int) (b : List BTx) (g : GStore)
    (hT : (g.txNodes.map TxNode.tx_id).Nodup) (hA : g.addrNodes.Nodup) :
    ((apply_batch_v2 resolve b g).txNodes.map TxNode.tx_id).Nodup ∧
    (apply_batch_v2 resolve b g).addrNodes.Nodup := by
  simp only [apply_batch_v2]
  have hm : ((stmt_merge_transactions_v2 (batch_records_v2 resolve b).1 g).txNodes.map
      TxNode.tx_id).Nodup :=
    nodup_merge_tx_fold _ _ g hT
  have hmA : (stmt_merge_transactions_v2 (batch_records_v2 resolve b).1 g).addrNodes.Nodup := by
    rw [show (stmt_merge_transactions_v2 (batch_records_v2 resolve b).1 g).addrNodes
        = g.addrNodes from addrNodes_merge_tx_fold _ _ g]
    exact hA
  have hi : ((stmt_create_in_edges (batch_records_v2 resolve b).2.1
        (stmt_merge_transactions_v2 (batch_records_v2 resolve b).1 g)).txNodes.map
        TxNode.tx_id).Nodup ∧
      (stmt_create_in_edges (batch_records_v2 resolve b).2.1
        (stmt_merge_transactions_v2 (batch_records_v2 resolve b).1 g)).addrNodes.Nodup :=
    nodup_edge_fold _ _ _ _ _ hm hmA
  exact nodup_edge_fold _ _ _ _ _ hi.1 hi.2

theorem apply_batch_v1_hasTx_mono (b : List BTx) (g : GStore) (k : Nat)
    (h : hasTx g k = true) : hasTx (apply_batch_v1 b g) k = true := by
  simp only [apply_batch_v1]
  refine hasTx_edge_fold_mono _ _ _ _ _ _ ?_
  exact hasTx_merge_tx_fold_mono _ _ _ _ h

theorem apply_batch_v1_hasAddr_mono (b : List BTx) (g : GStore) (a : Addr)
    (h : hasAddr g a = true) : hasAddr (apply_batch_v1 b g) a = true := by
  simp only [apply_batch_v1]
  refine hasAddr_edge_fold_mono _ _ _ _ _ _ ?_
  show hasAddr (merge_tx_fold txNodeOfTxV1 b g) a = true
  rw [hasAddr_eq_of_addrNodes_eq _ g (addrNodes_merge_tx_fold txNodeOfTxV1 _ g)]
  exact h

theorem apply_batch_v1_self (b : List BTx) (g : GStore) :
    (∀ tx ∈ b, hasTx (apply_batch_v1 b g) tx.tx_id = true) ∧
    (∀ r ∈ batch_vouts_v1 b,
      hasAddr (apply_batch_v1 b g) r.address = true ∧
      hasTx (apply_batch_v1 b g) r.tx_id = true) := by
  simp only [apply_batch_v1]
  constructor
  · intro tx htx
    refine hasTx_edge_fold_mono _ _ _ _ _ _ ?_
    exact hasTx_merge_tx_fold_self txNodeOfTxV1 _ _ tx htx
  · intro r hr
    exact edge_fold_self _ _ _ _ _ r hr

theorem apply_batch_v1_nodes_idem (b : List BTx) (g : GStore)
    (h1 : ∀ tx ∈ b, hasTx g tx.tx_id = true)
    (h2 : ∀ r ∈ batch_vouts_v1 b, hasAddr g r.address = true ∧ hasTx g r.tx_id = true) :
    (apply_batch_v1 b g).txNodes = g.txNodes ∧
    (apply_batch_v1 b g).addrNodes = g.addrNodes := by
  simp only [apply_batch_v1]
  rw [show stmt_merge_transactions_v1 b g = g from
    merge_tx_fold_all_present txNodeOfTxV1 _ g h1]
  exact edge_fold_nodes_all_present _ _ _ _ g h2

theorem apply_batch_v1_nodup (b : List BTx) (g : GStore)
    (hT : (g.txNodes.map TxNode.tx_id).Nodup) (hA : g.addrNodes.Nodup) :
    ((apply_batch_v1 b g).txNodes.map TxNode.tx_id).Nodup ∧
    (apply_batch_v1 b g).addrNodes.Nodup := by
  simp only [apply_batch_v1]
  have hm : ((stmt_merge_transactions_v1 b g).txNodes.map TxNode.tx_id).Nodup :=
    nodup_merge_tx_fold _ _ g hT
  have hmA : (stmt_merge_transactions_v1 b g).addrNodes.Nodup := by
    rw [show (stmt_merge_transactions_v1 b g).addrNodes = g.addrNodes from
      addrNodes_merge_tx_fold _ _ g]
    exact hA
  exact nodup_edge_fold _ _ _ _ _ hm hmA

/-! ## Whole-run lemmas (C4) -/

theorem fold_pres (step : List BTx → GStore → GStore) (Q : GStore → Prop)
    (hQ : ∀ b g, Q g → Q (step b g)) (batches : List (List BTx)) (g : GStore)
    (h : Q g) : Q (batches.foldl (fun g b => step b g) g) := by
  induction batches generalizing g with
  | nil => exact h
  | cons b t ih =>
    simp only [List.foldl_cons]
    exact ih (step b g) (hQ b g h)

theorem fold_self_present (step : List BTx → GStore → GStore)
    (P : List BTx → GStore → Prop)
    (hself : ∀ b g, P b (step b g))
    (hmono : ∀ b b2 g, P b g → P b (step b2 g))
    (batches : List (List BTx)) (g : GStore) :
    ∀ b ∈ batches, P b (batches.foldl (fun g b => step b g) g) := by
  induction batches generalizing g with
  | nil =>
    intro b hb
    cases hb
  | cons b0 t ih =>
    intro b hb
    simp only [List.foldl_cons]
    rcases List.mem_cons.mp hb with he | ht
    · subst he
      exact fold_pres step (P b) (fun b2 g0 h0 => hmono b b2 g0 h0) t (step b g)
        (hself b g)
    · exact ih (step b0 g) b ht

theorem fold_nodes_eq (step : List BTx → GStore → GStore)
    (P : List BTx → GStore → Prop)
    (hidem : ∀ b g, P b g →
      (step b g).txNodes = g.txNodes ∧ (step b g).addrNodes = g.addrNodes)
    (htrans : ∀ b g g2, g2.txNodes = g.txNodes → g2.addrNodes = g.addrNodes →
      P b g → P b g2)
    (batches : List (List BTx)) (g : GStore) (hall : ∀ b ∈ batches, P b g) :
    (batches.foldl (fun g b => step b g) g).txNodes = g.txNodes ∧
    (batches.foldl (fun g b => step b g) g).addrNodes = g.addrNodes := by
  induction batches generalizing g with
  | nil => exact ⟨rfl, rfl⟩
  | cons b t ih =>
    simp only [List.foldl_cons]
    have hb := hall b (List.mem_cons_self b t)
    have hstep := hidem b g hb
    have hrest := ih (step b g)
      (fun b2 hb2 => htrans b2 g (step b g) hstep.1 hstep.2
        (hall b2 (List.mem_cons_of_mem b hb2)))
    exact ⟨hrest.1.trans hstep.1, hrest.2.trans hstep.2⟩

/-- C4: applying either batched writer twice to the same block duplicates no
Address or Transaction node — node-key uniqueness is preserved — and the
second application leaves the store's Transaction and Address node lists,
including every attribute set at first creation, exactly as the first
successful write left them (edges aside, which the schema does not
deduplicate). -/
theorem claim_C4_idempotent_node_upsert (resolve : Nat → Nat → Addr × Int)
    (txs : List BTx) (batch_size : Nat) (g : GStore)
    (hT : (g.txNodes.map TxNode.tx_id).Nodup) (hA : g.addrNodes.Nodup) :
    (((write_once_v2 resolve txs batch_size g).txNodes.map TxNode.tx_id).Nodup ∧
      (write_once_v2 resolve txs batch_size g).addrNodes.Nodup ∧
      ((write_twice_v2 resolve txs batch_size g).txNodes.map TxNode.tx_id).Nodup ∧
      (write_twice_v2 resolve txs batch_size g).addrNodes.Nodup ∧
      (write_twice_v2 resolve txs batch_size g).txNodes =
        (write_once_v2 resolve txs batch_size g).txNodes ∧
      (write_twice_v2 resolve txs batch_size g).addrNodes =
        (write_once_v2 resolve txs batch_size g).addrNodes) ∧
    (((write_once_v1 txs batch_size g).txNodes.map TxNode.tx_id).Nodup ∧
      (write_once_v1 txs batch_size g).addrNodes.Nodup ∧
      ((write_twice_v1 txs batch_size g).txNodes.map TxNode.tx_id).Nodup ∧
      (write_twice_v1 txs batch_size g).addrNodes.Nodup ∧
      (write_twice_v1 txs batch_size g).txNodes =
        (write_once_v1 txs batch_size g).txNodes ∧
      (write_twice_v1 txs batch_size g).addrNodes =
        (write_once_v1 txs batch_size g).addrNodes) := by
  have hv2 : ∀ g0 : GStore, write_once_v2 resolve txs batch_size g0 =
      (chunks batch_size txs).foldl (fun g b => apply_batch_v2 resolve b g) g0 :=
    fun g0 => ((run_writer_spec (apply_batch_v2 resolve) txs batch_size
      (fun _ => false) g0).2.2 (fun _ _ => rfl)).2.2
  have hv1 : ∀ g0 : GStore, write_once_v1 txs batch_size g0 =
      (chunks batch_size txs).foldl (fun g b => apply_batch_v1 b g) g0 :=
    fun g0 => ((run_writer_spec apply_batch_v1 txs batch_size
      (fun _ => false) g0).2.2 (fun _ _ => rfl)).2.2
  have e2a : write_twice_v2 resolve txs batch_size g =
      (chunks batch_size txs).foldl (fun g b => apply_batch_v2 resolve b g)
        ((chunks batch_size txs).foldl (fun g b => apply_batch_v2 resolve b g) g) := by
    unfold write_twice_v2
    rw [hv2, hv2]
  have e2b : write_twice_v1 txs batch_size g =
      (chunks batch_size txs).foldl (fun g b => apply_batch_v1 b g)
        ((chunks batch_size txs).foldl (fun g b => apply_batch_v1 b g) g) := by
    unfold write_twice_v1
    rw [hv1, hv1]
  have hnodup2 : ∀ g0 : GStore,
      ((g0.txNodes.map TxNode.tx_id).Nodup ∧ g0.addrNodes.Nodup) →
      ((((chunks batch_size txs).foldl (fun g b => apply_batch_v2 resolve b g)
        g0).txNodes.map TxNode.tx_id).Nodup ∧
      ((chunks batch_size txs).foldl (fun g b => apply_batch_v2 resolve b g)
        g0).addrNodes.Nodup) :=
    fun g0 h0 => fold_pres (fun b g => apply_batch_v2 resolve b g)
      (fun g1 => (g1.txNodes.map TxNode.tx_id).Nodup ∧ g1.addrNodes.Nodup)
      (fun b g1 h1 => apply_batch_v2_nodup resolve b g1 h1.1 h1.2)
      (chunks batch_size txs) g0 h0
  have hnodup1 : ∀ g0 : GStore,
      ((g0.txNodes.map TxNode.tx_id).Nodup ∧ g0.addrNodes.Nodup) →
      ((((chunks batch_size txs).foldl (fun g b => apply_batch_v1 b g)
        g0).txNodes.map TxNode.tx_id).Nodup ∧
      ((chunks batch_size txs).foldl (fun g b => apply_batch_v1 b g)
        g0).addrNodes.Nodup) :=
    fun g0 h0 => fold_pres (fun b g => apply_batch_v1 b g)
      (fun g1 => (g1.txNodes.map TxNode.tx_id).Nodup ∧ g1.addrNodes.Nodup)
      (fun b g1 h1 => apply_batch_v1_nodup b g1 h1.1 h1.2)
      (chunks batch_size txs) g0 h0
  have htwice2 :
      (((chunks batch_size txs).foldl (fun g b => apply_batch_v2 resolve b g)
        ((chunks batch_size txs).foldl (fun g b => apply_batch_v2 resolve b g) g)).txNodes =
      ((chunks batch_size txs).foldl (fun g b => apply_batch_v2 resolve b g) g).txNodes) ∧
      ((chunks batch_size txs).foldl (fun g b => apply_batch_v2 resolve b g)
        ((chunks batch_size txs).foldl (fun g b => apply_batch_v2 resolve b g) g)).addrNodes =
      ((chunks batch_size txs).foldl (fun g b => apply_batch_v2 resolve b g) g).addrNodes := by
    refine fold_nodes_eq (fun b g => apply_batch_v2 resolve b g)
      (fun b g1 =>
        (∀ r ∈ (batch_records_v2 resolve b).1, hasTx g1 r.tx_id = true) ∧
        (∀ r ∈ (batch_records_v2 resolve b).2.1,
          hasAddr g1 r.address = true ∧ hasTx g1 r.tx_id = true) ∧
        (∀ r ∈ (batch_records_v2 resolve b).2.2,
          hasAddr g1 r.address = true ∧ hasTx g1 r.tx_id = true))
      (fun b g1 hP => apply_batch_v2_nodes_idem resolve b g1 hP.1 hP.2.1 hP.2.2)
      (fun b g1 g2 hTx hAd hP =>
        ⟨fun r hr => by rw [hasTx_eq_of_txNodes_eq g2 g1 hTx]; exact hP.1 r hr,
         fun r hr => ⟨by rw [hasAddr_eq_of_addrNodes_eq g2 g1 hAd]; exact (hP.2.1 r hr).1,
           by rw [hasTx_eq_of_txNodes_eq g2 g1 hTx]; exact (hP.2.1 r hr).2⟩,
         fun r hr => ⟨by rw [hasAddr_eq_of_addrNodes_eq g2 g1 hAd]; exact (hP.2.2 r hr).1,
           by rw [hasTx_eq_of_txNodes_eq g2 g1 hTx]; exact (hP.2.2 r hr).2⟩⟩)
      (chunks batch_size txs) _ ?_
    refine fold_self_present (fun b g => apply_batch_v2 resolve b g)
      (fun b g1 =>
        (∀ r ∈ (batch_records_v2 resolve b).1, hasTx g1 r.tx_id = true) ∧
        (∀ r ∈ (batch_records_v2 resolve b).2.1,
          hasAddr g1 r.address = true ∧ hasTx g1 r.tx_id = true) ∧
        (∀ r ∈ (batch_records_v2 resolve b).2.2,
          hasAddr g1 r.address = true ∧ hasTx g1 r.tx_id = true))
      (fun b g1 => apply_batch_v2_self resolve b g1)
      (fun b b2 g1 hP =>
        ⟨fun r hr => apply_batch_v2_hasTx_mono resolve b2 g1 r.tx_id (hP.1 r hr),
         fun r hr => ⟨apply_batch_v2_hasAddr_mono resolve b2 g1 r.address (hP.2.1 r hr).1,
           apply_batch_v2_hasTx_mono resolve b2 g1 r.tx_id (hP.2.1 r hr).2⟩,
         fun r hr => ⟨apply_batch_v2_hasAddr_mono resolve b2 g1 r.address (hP.2.2 r hr).1,
           apply_batch_v2_hasTx_mono resolve b2 g1 r.tx_id (hP.2.2 r hr).2⟩⟩)
      (chunks batch_size txs) g
  have htwice1 :
      (((chunks batch_size txs).foldl (fun g b => apply_batch_v1 b g)
        ((chunks batch_size txs).foldl (fun g b => apply_batch_v1 b g) g)).txNodes =
      ((chunks batch_size txs).foldl (fun g b => apply_batch_v1 b g) g).txNodes) ∧
      ((chunks batch_size txs).foldl (fun g b => apply_batch_v1 b g)
        ((chunks batch_size txs).foldl (fun g b => apply_batch_v1 b g) g)).addrNodes =
      ((chunks batch_size txs).foldl (fun g b => apply_batch_v1 b g) g).addrNodes := by
    refine fold_nodes_eq (fun b g => apply_batch_v1 b g)
      (fun b g1 =>
        (∀ tx ∈ b, hasTx g1 tx.tx_id = true) ∧
        (∀ r ∈ batch_vouts_v1 b, hasAddr g1 r.address = true ∧ hasTx g1 r.tx_id = true))
      (fun b g1 hP => apply_batch_v1_nodes_idem b g1 hP.1 hP.2)
      (fun b g1 g2 hTx hAd hP =>
        ⟨fun tx htx => by rw [hasTx_eq_of_txNodes_eq g2 g1 hTx]; exact hP.1 tx htx,
         fun r hr => ⟨by rw [hasAddr_eq_of_addrNodes_eq g2 g1 hAd]; exact (hP.2 r hr).1,
           by rw [hasTx_eq_of_txNodes_eq g2 g1 hTx]; exact (hP.2 r hr).2⟩⟩)
      (chunks batch_size txs) _ ?_
    refine fold_self_present (fun b g => apply_batch_v1 b g)
      (fun b g1 =>
        (∀ tx ∈ b, hasTx g1 tx.tx_id = true) ∧
        (∀ r ∈ batch_vouts_v1 b, hasAddr g1 r.address = true ∧ hasTx g1 r.tx_id = true))
      (fun b g1 => apply_batch_v1_self b g1)
      (fun b b2 g1 hP =>
        ⟨fun tx htx => apply_batch_v1_hasTx_mono b2 g1 tx.tx_id (hP.1 tx htx),
         fun r hr => ⟨apply_batch_v1_hasAddr_mono b2 g1 r.address (hP.2 r hr).1,
           apply_batch_v1_hasTx_mono b2 g1 r.tx_id (hP.2 r hr).2⟩⟩)
      (chunks batch_size txs) g
  rw [hv2 g, e2a, hv1 g, e2b]
  have h1a := hnodup2 g ⟨hT, hA⟩
  have h2a := hnodup2 _ h1a
  have h1b := hnodup1 g ⟨hT, hA⟩
  have h2b := hnodup1 _ h1b
  exact ⟨⟨h1a.1, h1a.2, h2a.1, h2a.2, htwice2.1, htwice2.2⟩,
    ⟨h1b.1, h1b.2, h2b.1, h2b.2, htwice1.1, htwice1.2⟩⟩

/-- Witness for C4 on the empty store and a one-transaction block. -/
theorem claim_C4_witness :
    (((write_once_v2 (fun _ _ => ("A", 7))
        [{ tx_id := 1, timestamp := 10, block_height := 100, is_coinbase := false,
           vins := [{ tx_id := 9, vout_id := 0 }],
           vouts := [{ address := "X", value_satoshi := 5 }] }]
        8 emptyStore).txNodes.map TxNode.tx_id).Nodup ∧
      (write_once_v2 (fun _ _ => ("A", 7))
        [{ tx_id := 1, timestamp := 10, block_height := 100, is_coinbase := false,
           vins := [{ tx_id := 9, vout_id := 0 }],
           vouts := [{ address := "X", value_satoshi := 5 }] }]
        8 emptyStore).addrNodes.Nodup ∧
      ((write_twice_v2 (fun _ _ => ("A", 7))
        [{ tx_id := 1, timestamp := 10, block_height := 100, is_coinbase := false,
           vins := [{ tx_id := 9, vout_id := 0 }],
           vouts := [{ address := "X", value_satoshi := 5 }] }]
        8 emptyStore).txNodes.map TxNode.tx_id).Nodup ∧
      (write_twice_v2 (fun _ _ => ("A", 7))
        [{ tx_id := 1, timestamp := 10, block_height := 100, is_coinbase := false,
           vins := [{ tx_id := 9, vout_id := 0 }],
           vouts := [{ address := "X", value_satoshi := 5 }] }]
        8 emptyStore).addrNodes.Nodup ∧
      (write_twice_v2 (fun _ _ => ("A", 7))
        [{ tx_id := 1, timestamp := 10, block_height := 100, is_coinbase := false,
           vins := [{ tx_id := 9, vout_id := 0 }],
           vouts := [{ address := "X", value_satoshi := 5 }] }]
        8 emptyStore).txNodes =
        (write_once_v2 (fun _ _ => ("A", 7))
        [{ tx_id := 1, timestamp := 10, block_height := 100, is_coinbase := false,
           vins := [{ tx_id := 9, vout_id := 0 }],
           vouts := [{ address := "X", value_satoshi := 5 }] }]
        8 emptyStore).txNodes ∧
      (write_twice_v2 (fun _ _ => ("A", 7))
        [{ tx_id := 1, timestamp := 10, block_height := 100, is_coinbase := false,
           vins := [{ tx_id := 9, vout_id := 0 }],
           vouts := [{ address := "X", value_satoshi := 5 }] }]
        8 emptyStore).addrNodes =
        (write_once_v2 (fun _ _ => ("A", 7))
        [{ tx_id := 1, timestamp := 10, block_height := 100, is_coinbase := false,
           vins := [{ tx_id := 9, vout_id := 0 }],
           vouts := [{ address := "X", value_satoshi := 5 }] }]
        8 emptyStore).addrNodes) ∧
    (((write_once_v1
        [{ tx_id := 1, timestamp := 10, block_height := 100, is_coinbase := false,
           vins := [{ tx_id := 9, vout_id := 0 }],
           vouts := [{ address := "X", value_satoshi := 5 }] }]
        8 emptyStore).txNodes.map TxNode.tx_id).Nodup ∧
      (write_once_v1
        [{ tx_id := 1, timestamp := 10, block_height := 100, is_coinbase := false,
           vins := [{ tx_id := 9, vout_id := 0 }],
           vouts := [{ address := "X", value_satoshi := 5 }] }]
        8 emptyStore).addrNodes.Nodup ∧
      ((write_twice_v1
        [{ tx_id := 1, timestamp := 10, block_height := 100, is_coinbase := false,
           vins := [{ tx_id := 9, vout_id := 0 }],
           vouts := [{ address := "X", value_satoshi := 5 }] }]
        8 emptyStore).txNodes.map TxNode.tx_id).Nodup ∧
      (write_twice_v1
        [{ tx_id := 1, timestamp := 10, block_height := 100, is_coinbase := false,
           vins := [{ tx_id := 9, vout_id := 0 }],
           vouts := [{ address := "X", value_satoshi := 5 }] }]
        8 emptyStore).addrNodes.Nodup ∧
      (write_twice_v1
        [{ tx_id := 1, timestamp := 10, block_height := 100, is_coinbase := false,
           vins := [{ tx_id := 9, vout_id := 0 }],
           vouts := [{ address := "X", value_satoshi := 5 }] }]
        8 emptyStore).txNodes =
        (write_once_v1
        [{ tx_id := 1, timestamp := 10, block_height := 100, is_coinbase := false,
           vins := [{ tx_id := 9, vout_id := 0 }],
           vouts := [{ address := "X", value_satoshi := 5 }] }]
        8 emptyStore).txNodes ∧
      (write_twice_v1
        [{ tx_id := 1, timestamp := 10, block_height := 100, is_coinbase := false,
           vins := [{ tx_id := 9, vout_id := 0 }],
           vouts := [{ address := "X", value_satoshi := 5 }] }]
        8 emptyStore).addrNodes =
        (write_once_v1
        [{ tx_id := 1, timestamp := 10, block_height := 100, is_coinbase := false,
           vins := [{ tx_id := 9, vout_id := 0 }],
           vouts := [{ address := "X", value_satoshi := 5 }] }]
        8 emptyStore).addrNodes) :=
  claim_C4_idempotent_node_upsert (fun _ _ => ("A", 7))
    [{ tx_id := 1, timestamp := 10, block_height := 100, is_coinbase := false,
       vins := [{ tx_id := 9, vout_id := 0 }],
       vouts := [{ address := "X", value_satoshi := 5 }] }]
    8 emptyStore (by decide) (by decide)

/-! ## Legacy writer lemmas (C10) -/

theorem edges_flow2_add_edge (g : GStore) (a : Addr) (id : Nat) (v : Int) (cb : Bool) :
    (flow2_add_edge g a id v cb).edges =
      g.edges ++ [{ dir := EdgeDir.outbound, address := a, tx_id := id,
                    value_satoshi := v, edge_is_coinbase := some cb }] := by
  simp only [flow2_add_edge, edges_addEdge, edges_mergeTxNode, edges_mergeAddr]

theorem mem_edges_flow2_vout_fold (vouts : List VOut) (id : Nat) (g : GStore)
    (e : SentEdge) (h : e ∈ g.edges) :
    e ∈ ((vouts.foldl
      (fun g0 w => flow2_add_edge g0 w.address id w.value_satoshi false) g)).edges := by
  induction vouts generalizing g with
  | nil => exact h
  | cons w t ih =>
    simp only [List.foldl_cons]
    refine ih _ ?_
    rw [edges_flow2_add_edge]
    exact List.mem_append_left _ h

theorem flow2_vout_fold_self (vouts : List VOut) (id : Nat) (g : GStore)
    (w : VOut) (hw : w ∈ vouts) :
    ({ dir := EdgeDir.outbound, address := w.address, tx_id := id,
       value_satoshi := w.value_satoshi, edge_is_coinbase := some false } : SentEdge) ∈
    ((vouts.foldl
      (fun g0 w0 => flow2_add_edge g0 w0.address id w0.value_satoshi false) g)).edges := by
  induction vouts generalizing g with
  | nil => cases hw
  | cons w0 t ih =>
    simp only [List.foldl_cons]
    rcases List.mem_cons.mp hw with he | ht
    · subst he
      refine mem_edges_flow2_vout_fold t id _ _ ?_
      rw [edges_flow2_add_edge]
      exact List.mem_append_right _ (List.mem_singleton_self _)
    · exact ih _ ht

theorem flow2_process_tx_some (g : GStore) (tx : BTx)
    (hok : tx.is_coinbase = true → tx.vouts ≠ []) :
    ∃ g1, flow2_process_tx g tx = some g1 ∧
      (∀ e ∈ g.edges, e ∈ g1.edges) ∧
      (tx.is_coinbase = true → ∀ v0 rest, tx.vouts = v0 :: rest →
        ({ dir := EdgeDir.outbound, address := v0.address, tx_id := tx.tx_id,
           value_satoshi := v0.value_satoshi, edge_is_coinbase := some true } : SentEdge)
          ∈ g1.edges ∧
        ({ dir := EdgeDir.outbound, address := v0.address, tx_id := tx.tx_id,
           value_satoshi := v0.value_satoshi, edge_is_coinbase := some false } : SentEdge)
          ∈ g1.edges) := by
  by_cases hcb : tx.is_coinbase = true
  · obtain ⟨v0, rest, hv⟩ : ∃ v0 rest, tx.vouts = v0 :: rest := by
      cases hvs : tx.vouts with
      | nil => exact absurd hvs (hok hcb)
      | cons v0 rest => exact ⟨v0, rest, rfl⟩
    refine ⟨tx.vouts.foldl
      (fun g0 w => flow2_add_edge g0 w.address tx.tx_id w.value_satoshi false)
      (flow2_add_edge (mergeTxNode g (txNodeOfTxV1 tx)) v0.address tx.tx_id
        v0.value_satoshi true), ?_, ?_, ?_⟩
    · simp only [flow2_process_tx, hcb, if_true, hv]
    · intro e he
      refine mem_edges_flow2_vout_fold tx.vouts tx.tx_id _ e ?_
      rw [edges_flow2_add_edge, edges_mergeTxNode]
      exact List.mem_append_left _ he
    · intro _ w0 rest0 hv0
      rw [hv] at hv0
      injection hv0 with e1 e2
      subst e1
      subst e2
      constructor
      · refine mem_edges_flow2_vout_fold tx.vouts tx.tx_id _ _ ?_
        rw [edges_flow2_add_edge]
        exact List.mem_append_right _ (List.mem_singleton_self _)
      · refine flow2_vout_fold_self tx.vouts tx.tx_id _ v0 ?_
        rw [hv]
        exact List.mem_cons_self v0 rest
  · refine ⟨tx.vouts.foldl
      (fun g0 w => flow2_add_edge g0 w.address tx.tx_id w.value_satoshi false)
      (mergeTxNode g (txNodeOfTxV1 tx)), ?_, ?_, ?_⟩
    · have hcb0 : tx.is_coinbase = false := by simpa using hcb
      simp only [flow2_process_tx, hcb0, Bool.false_eq_true, if_false]
    · intro e he
      refine mem_edges_flow2_vout_fold tx.vouts tx.tx_id _ e ?_
      rw [edges_mergeTxNode]
      exact he
    · intro hcb1
      exact absurd hcb1 hcb

theorem flow2_loop_some (txs : List BTx) (g : GStore)
    (hok : ∀ t ∈ txs, t.is_coinbase = true → t.vouts ≠ []) :
    ∃ gf, flow2_loop txs g = some gf ∧ (∀ e ∈ g.edges, e ∈ gf.edges) ∧
      (∀ tx ∈ txs, tx.is_coinbase = true → ∀ v0 rest, tx.vouts = v0 :: rest →
        ({ dir := EdgeDir.outbound, address := v0.address, tx_id := tx.tx_id,
           value_satoshi := v0.value_satoshi, edge_is_coinbase := some true } : SentEdge)
          ∈ gf.edges ∧
        ({ dir := EdgeDir.outbound, address := v0.address, tx_id := tx.tx_id,
           value_satoshi := v0.value_satoshi, edge_is_coinbase := some false } : SentEdge)
          ∈ gf.edges) := by
  induction txs generalizing g with
  | nil =>
    refine ⟨g, rfl, fun e he => he, ?_⟩
    intro tx htx
    cases htx
  | cons t rest ih =>
    obtain ⟨g1, he1, hmono1, hsp1⟩ :=
      flow2_process_tx_some g t (hok t (List.mem_cons_self t rest))
    obtain ⟨gf, hef, hmonof, hspf⟩ :=
      ih g1 (fun t0 ht0 => hok t0 (List.mem_cons_of_mem t ht0))
    refine ⟨gf, ?_, fun e he => hmonof e (hmono1 e he), ?_⟩
    · simp only [flow2_loop, he1]
      exact hef
    · intro tx htx hcb v0 rest0 hv0
      rcases List.mem_cons.mp htx with hte | htr
      · subst hte
        obtain ⟨h1, h2⟩ := hsp1 hcb v0 rest0 hv0
        exact ⟨hmonof _ h1, hmonof _ h2⟩
      · exact hspf tx htr hcb v0 rest0 hv0

/-- C10: in the legacy writer `create_graph_focused_on_money_flow2`, every
coinbase transaction's first output yields two `SENT` edges to its address,
one created with `is_coinbase: true` and a second with `is_coinbase: false`
by the subsequent loop over all outputs, both carrying the same amount, so
the coinbase reward is recorded on two distinct edges. -/
theorem claim_C10_coinbase_double_edge (txs : List BTx) (g : GStore) (tx : BTx)
    (hok : ∀ t ∈ txs, t.is_coinbase = true → t.vouts ≠ [])
    (htx : tx ∈ txs) (hcb : tx.is_coinbase = true)
    (v0 : VOut) (rest : List VOut) (hv : tx.vouts = v0 :: rest) :
    (create_graph_focused_on_money_flow2 txs g).1 = true ∧
    ({ dir := EdgeDir.outbound, address := v0.address, tx_id := tx.tx_id,
       value_satoshi := v0.value_satoshi, edge_is_coinbase := some true } : SentEdge)
      ∈ (create_graph_focused_on_money_flow2 txs g).2.edges ∧
    ({ dir := EdgeDir.outbound, address := v0.address, tx_id := tx.tx_id,
       value_satoshi := v0.value_satoshi, edge_is_coinbase := some false } : SentEdge)
      ∈ (create_graph_focused_on_money_flow2 txs g).2.edges := by
  obtain ⟨gf, he, hmono, hsp⟩ := flow2_loop_some txs g hok
  unfold create_graph_focused_on_money_flow2
  rw [he]
  exact ⟨rfl, (hsp tx htx hcb v0 rest hv).1, (hsp tx htx hcb v0 rest hv).2⟩

/-- Witness for C10: a coinbase transaction with a single 50-satoshi output
to "X" produces both the coinbase-flagged and the unflagged edge. -/
theorem claim_C10_witness :
    (create_graph_focused_on_money_flow2
      [{ tx_id := 1, timestamp := 10, block_height := 100, is_coinbase := true,
         vins := [], vouts := [{ address := "X", value_satoshi := 50 }] }]
      emptyStore).1 = true ∧
    ({ dir := EdgeDir.outbound, address := "X", tx_id := 1, value_satoshi := 50,
       edge_is_coinbase := some true } : SentEdge) ∈
      (create_graph_focused_on_money_flow2
        [{ tx_id := 1, timestamp := 10, block_height := 100, is_coinbase := true,
           vins := [], vouts := [{ address := "X", value_satoshi := 50 }] }]
        emptyStore).2.edges ∧
    ({ dir := EdgeDir.outbound, address := "X", tx_id := 1, value_satoshi := 50,
       edge_is_coinbase := some false } : SentEdge) ∈
      (create_graph_focused_on_money_flow2
        [{ tx_id := 1, timestamp := 10, block_height := 100, is_coinbase := true,
           vins := [], vouts := [{ address := "X", value_satoshi := 50 }] }]
        emptyStore).2.edges :=
  claim_C10_coinbase_double_edge
    [{ tx_id := 1, timestamp := 10, block_height := 100, is_coinbase := true,
       vins := [], vouts := [{ address := "X", value_satoshi := 50 }] }]
    emptyStore
    { tx_id := 1, timestamp := 10, block_height := 100, is_coinbase := true,
      vins := [], vouts := [{ address := "X", value_satoshi := 50 }] }
    (by decide) (by decide) rfl
    { address := "X", value_satoshi := 50 } [] rfl

end BlockchainSubnet
